import Mathlib

/-!
Employee management system: the audit trail.

A shallow embedding of the history subsystem of the repository:

* `models/EmployeeHistory.js`  (`createHistory`, the field differ inside it),
* `models/Employee.js`         (the employee document, `softDelete`),
* `employeeController.js`      (`createEmployee`, `updateEmployee`, `deleteEmployee`),
* `historyController.js`       (`getEmployeeHistory`, `getHistoryDetails`, `compareVersions`).

JavaScript values are an inductive type, `JSON.stringify` is a function to
`Option String` (`none` is the JavaScript `undefined` it returns for an
`undefined` argument), the two MongoDB collections are lists in insertion
order, and every controller is a function from a state to a state and a
response.
-/

namespace EmployeeHistory

/-! ## JavaScript values -/

/-- A MongoDB ObjectId, identified by a number. -/
abbrev ObjectId := Nat

/-- The JavaScript values that occur in documents and snapshots.  Numbers are
the integer-valued ones, a `Date` is given by its epoch milliseconds, an
object is the list of its own properties in insertion order. -/
inductive JsValue where
  | undefined
  | null
  | bool (b : Bool)
  | num (n : Int)
  | str (s : String)
  | date (ms : Nat)
  | oid (n : ObjectId)
  | arr (items : List JsValue)
  | obj (props : List (String × JsValue))

namespace JsValue

mutual
/-- Structural equality test on values. -/
def beq : JsValue → JsValue → Bool
  | undefined, undefined => true
  | null, null => true
  | bool a, bool b => a == b
  | num a, num b => a == b
  | str a, str b => a == b
  | date a, date b => a == b
  | oid a, oid b => a == b
  | arr xs, arr ys => beqItems xs ys
  | obj ps, obj qs => beqProps ps qs
  | _, _ => false
/-- Structural equality test on array items. -/
def beqItems : List JsValue → List JsValue → Bool
  | [], [] => true
  | x :: xs, y :: ys => beq x y && beqItems xs ys
  | _, _ => false
/-- Structural equality test on property lists. -/
def beqProps : List (String × JsValue) → List (String × JsValue) → Bool
  | [], [] => true
  | (k, x) :: ps, (l, y) :: qs => k == l && beq x y && beqProps ps qs
  | _, _ => false
end

mutual
theorem beq_iff : ∀ a b : JsValue, beq a b = true ↔ a = b
  | undefined, b => by cases b <;> simp [beq]
  | null, b => by cases b <;> simp [beq]
  | bool a, b => by cases b <;> simp [beq]
  | num a, b => by cases b <;> simp [beq]
  | str a, b => by cases b <;> simp [beq]
  | date a, b => by cases b <;> simp [beq]
  | oid a, b => by cases b <;> simp [beq]
  | arr xs, b => by cases b <;> simp [beq, beqItems_iff xs]
  | obj ps, b => by cases b <;> simp [beq, beqProps_iff ps]
theorem beqItems_iff : ∀ xs ys : List JsValue, beqItems xs ys = true ↔ xs = ys
  | [], ys => by cases ys <;> simp [beqItems]
  | x :: xs, ys => by cases ys <;> simp [beqItems, beq_iff x, beqItems_iff xs]
theorem beqProps_iff :
    ∀ ps qs : List (String × JsValue), beqProps ps qs = true ↔ ps = qs
  | [], qs => by cases qs <;> simp [beqProps]
  | (k, x) :: ps, qs => by
    cases qs with
    | nil => simp [beqProps]
    | cons q qs =>
      obtain ⟨l, y⟩ := q
      simp [beqProps, beq_iff x, beqProps_iff ps, and_assoc]
end

instance : DecidableEq JsValue := fun a b =>
  decidable_of_iff (beq a b = true) (beq_iff a b)

end JsValue

/-! ## `JSON.stringify` -/

/-- The double quote character. -/
def dquote : Char := Char.ofNat 34

/-- The backslash character. -/
def backslash : Char := Char.ofNat 92

/-- Decimal digits of `n`, left-padded with zeros to `width` characters. -/
def padZero (width n : Nat) : List Char :=
  let ds := Nat.toDigits 10 n
  List.replicate (width - ds.length) '0' ++ ds

/-- Hexadecimal digits of `n`, left-padded with zeros to `width` characters. -/
def padHex (width n : Nat) : List Char :=
  let ds := Nat.toDigits 16 n
  List.replicate (width - ds.length) '0' ++ ds

/-- The escape sequence `JSON.stringify` writes for one character of a
string (QuoteJSONString of ECMAScript). -/
def escapeChar (c : Char) : List Char :=
  if c.toNat = 8 then [backslash, 'b']
  else if c.toNat = 9 then [backslash, 't']
  else if c.toNat = 10 then [backslash, 'n']
  else if c.toNat = 12 then [backslash, 'f']
  else if c.toNat = 13 then [backslash, 'r']
  else if c.toNat = 34 then [backslash, dquote]
  else if c.toNat = 92 then [backslash, backslash]
  else if c.toNat < 32 then backslash :: 'u' :: padHex 4 c.toNat
  else [c]

/-- The characters of a string, each one escaped. -/
def escapeChars : List Char → List Char
  | [] => []
  | c :: cs => escapeChar c ++ escapeChars cs

/-- The JSON text of a string: `JSON.stringify(s)` for a string `s`. -/
def quote (s : String) : String :=
  String.mk (dquote :: (escapeChars s.data ++ [dquote]))

/-- `Date.prototype.toISOString` for a date at `ms` milliseconds after the
epoch (the proleptic Gregorian calendar, UTC). -/
def toISOString (ms : Nat) : String :=
  let days := ms / 86400000
  let rest := ms % 86400000
  let z := days + 719468
  let era := z / 146097
  let doe := z % 146097
  let yoe := (doe - doe / 1460 + doe / 36524 - doe / 146096) / 365
  let doy := doe - (365 * yoe + yoe / 4 - yoe / 100)
  let mp := (5 * doy + 2) / 153
  let d := doy - (153 * mp + 2) / 5 + 1
  let m := if mp < 10 then mp + 3 else mp - 9
  let y := yoe + era * 400 + (if m ≤ 2 then 1 else 0)
  let year := if y ≤ 9999 then padZero 4 y else '+' :: padZero 6 y
  String.mk (year ++ '-' :: padZero 2 m ++ '-' :: padZero 2 d ++ 'T' ::
    padZero 2 (rest / 3600000) ++ ':' :: padZero 2 (rest % 3600000 / 60000) ++ ':' ::
    padZero 2 (rest % 60000 / 1000) ++ '.' :: padZero 3 (rest % 1000) ++ ['Z'])

/-- `ObjectId.prototype.toJSON`: the 24 hexadecimal digits of the id. -/
def ObjectId.toHexString (n : ObjectId) : String :=
  String.mk (padHex 24 n)

/-- Texts joined with commas. -/
def joinComma : List String → String
  | [] => ""
  | [t] => t
  | t :: ts => t ++ "," ++ joinComma ts

mutual
/-- `JSON.stringify(v)`; `none` is the `undefined` it returns when `v` is
`undefined`. -/
def stringify : JsValue → Option String
  | .undefined => none
  | .null => some "null"
  | .bool b => some (if b then "true" else "false")
  | .num n => some (toString n)
  | .str s => some (quote s)
  | .date ms => some (quote (toISOString ms))
  | .oid n => some (quote (ObjectId.toHexString n))
  | .arr items => some ("[" ++ joinComma (stringifyItems items) ++ "]")
  | .obj props => some ("\x7b" ++ joinComma (stringifyProps props) ++ "\x7d")
/-- The texts of the items of an array: an `undefined` item is written
`null`. -/
def stringifyItems : List JsValue → List String
  | [] => []
  | v :: vs => (stringify v).getD "null" :: stringifyItems vs
/-- The texts of the properties of an object, in insertion order: a property
whose value is `undefined` is left out. -/
def stringifyProps : List (String × JsValue) → List String
  | [] => []
  | (k, v) :: ps =>
    match stringify v with
    | none => stringifyProps ps
    | some t => (quote k ++ ":" ++ t) :: stringifyProps ps
end

/-- JavaScript truthiness, as tested by `||`, `!` and `if`. -/
def truthy : JsValue → Bool
  | .undefined => false
  | .null => false
  | .bool b => b
  | .num n => n != 0
  | .str s => s != ""
  | _ => true

/-! ## Data model -/

/-- A plain object: its own properties in insertion order.  A snapshot of an
employee is such an object. -/
abbrev Snapshot := List (String × JsValue)

/-- Property read `o[k]`: `undefined` when `o` has no property `k`. -/
def Snapshot.get : Snapshot → String → JsValue
  | [], _ => .undefined
  | (k', v) :: ps, k => if k' = k then v else Snapshot.get ps k

/-- Property write `o[k] = v`: an existing property keeps its place, a new one
goes last. -/
def Snapshot.set : Snapshot → String → JsValue → Snapshot
  | [], k, v => [(k, v)]
  | (k', w) :: ps, k, v => if k' = k then (k, v) :: ps else (k', w) :: Snapshot.set ps k v

/-- The `operation` enum of the history schema. -/
inductive Operation where
  | CREATE
  | UPDATE
  | DELETE
  deriving DecidableEq, Repr

/-- An entry of `changes` in a history record. -/
structure FieldChange where
  field : String
  oldValue : JsValue
  newValue : JsValue
  deriving DecidableEq

/-- An entry of `differences` in the response of `compareVersions`. -/
structure Difference where
  field : String
  version1Value : JsValue
  version2Value : JsValue
  deriving DecidableEq

/-- A document of the `EmployeeHistory` collection (`employeeHistorySchema`,
with the `createdAt` of `timestamps: true`). -/
structure HistoryRecord where
  _id : ObjectId
  employeeId : ObjectId
  employeeRefId : String
  operation : Operation
  changes : List FieldChange
  snapshot : Snapshot
  changedBy : String
  changeReason : String
  createdAt : Nat
  deriving DecidableEq

/-- A document of the `Employee` collection: its `_id` and the values of its
other paths (`employeeId`, `fullName`, ..., `isDeleted`, `deletedAt`,
`createdAt`, `updatedAt`). -/
structure EmployeeDoc where
  _id : ObjectId
  paths : Snapshot
  deriving DecidableEq

/-- The values a path of the employee schema can hold (its paths are of
type String, Number, Date or Boolean), and an ObjectId. -/
def isScalar : JsValue → Bool
  | .null => true
  | .bool _ => true
  | .num _ => true
  | .str _ => true
  | .date _ => true
  | .oid _ => true
  | _ => false

/-- `employee.toObject()`: the `_id` and the values the paths hold.  A path
of the employee schema holds a scalar or nothing, so these are the scalar
values. -/
def EmployeeDoc.toObject (e : EmployeeDoc) : Snapshot :=
  ("_id", .oid e._id) :: e.paths.filter (fun kv => isScalar kv.2)

/-- What a String path of a document holds: a string, or `none` for `null`
and `undefined`. -/
def stringPath : JsValue → Option String
  | .str s => some s
  | _ => none

/-- The property read `employee.employeeId`; `employeeId` is a String path of
the employee schema. -/
def EmployeeDoc.employeeId (e : EmployeeDoc) : Option String :=
  stringPath (e.paths.get "employeeId")

/-- The two collections, each in insertion order, and the next ObjectId the
driver hands out.  The history collection holds the records that have a
snapshot; the controllers write no other. -/
structure State where
  employees : List EmployeeDoc
  history : List HistoryRecord
  nextOid : ObjectId
  deriving DecidableEq

/-- The empty system. -/
def State.init : State := ⟨[], [], 0⟩

/-! ## `models/EmployeeHistory.js` -/

/-- The `fieldsToTrack` array of `createHistory`. -/
def fieldsToTrack : List String :=
  ["fullName", "email", "phoneNumber", "department", "designation", "salary",
   "employmentStatus", "dateOfJoining"]

/-- The body of `fieldsToTrack.forEach` in `createHistory`: the entry pushed
for `field`, if any. -/
def changeOf (oldData newData : Snapshot) (field : String) : Option FieldChange :=
  let oldValue := oldData.get field
  let newValue := newData.get field
  if stringify oldValue ≠ stringify newValue then some ⟨field, oldValue, newValue⟩ else none

/-- The `changes` array `createHistory` builds (lines 75-103): filled only
when `operation === 'UPDATE' && oldData`. -/
def computeChanges (operation : Operation) (oldData : Option Snapshot)
    (newData : Snapshot) : List FieldChange :=
  match operation, oldData with
  | .UPDATE, some old => fieldsToTrack.filterMap (changeOf old newData)
  | _, _ => []

/-- The document `createHistory` hands to `this.create`, with the `_id` and
`createdAt` it gets on insertion. -/
def buildHistory (_id : ObjectId) (now : Nat) (employeeId : ObjectId)
    (employeeRefId : String) (operation : Operation) (oldData : Option Snapshot)
    (newData : Snapshot) (changedBy changeReason : String) : HistoryRecord :=
  { _id := _id
    employeeId := employeeId
    employeeRefId := employeeRefId
    operation := operation
    changes := computeChanges operation oldData newData
    snapshot := newData
    changedBy := changedBy
    changeReason := changeReason
    createdAt := now }

mutual
/-- What the `minimize` option of a schema (on by default) leaves of a value
when a document is stored: a property whose value is `undefined` or an
object left with no property is dropped.  `none` is a value dropped
whole. -/
def minimizeValue : JsValue → Option JsValue
  | .undefined => none
  | .obj props =>
    match minimizeProps props with
    | [] => none
    | kept => some (.obj kept)
  | .arr items => some (.arr (minimizeItems items))
  | v => some v
/-- The properties `minimize` leaves of an object. -/
def minimizeProps : List (String × JsValue) → List (String × JsValue)
  | [] => []
  | (k, v) :: ps =>
    match minimizeValue v with
    | none => minimizeProps ps
    | some w => (k, w) :: minimizeProps ps
/-- The items of an array as they are stored: an object that is an item
stays, even with no property left, and an `undefined` item is stored as
`null`. -/
def minimizeItems : List JsValue → List JsValue
  | [] => []
  | .obj props :: vs => .obj (minimizeProps props) :: minimizeItems vs
  | v :: vs => (minimizeValue v).getD .null :: minimizeItems vs
end

/-- An entry of `changes` as it is stored. -/
def minimizeChange (c : FieldChange) : FieldChange :=
  ⟨c.field, (minimizeValue c.oldValue).getD .undefined,
    (minimizeValue c.newValue).getD .undefined⟩

/-- What a call of `createHistory` does to the history collection. -/
inductive HistoryWrite where
  /-- The validation of `this.create` fails and the call throws: nothing is
  persisted. -/
  | rejected
  /-- A record is persisted: the state after it and the record as stored. -/
  | stored (s : State) (r : HistoryRecord)
  /-- Nothing is left of the after snapshot by `minimize` (it is the empty
  object, say): the record is persisted with no `snapshot` at all. -/
  | storedWithoutSnapshot

/-- `EmployeeHistory.createHistory` (lines 66-117).  `employeeRefId` is what
the callers pass, the value of a String path; the schema (lines 16-20) has
it `required: true`, so `this.create` rejects `null`, `undefined` and the
empty string.  The record is stored as `minimize` leaves it. -/
def createHistory (s : State) (now : Nat) (employeeId : ObjectId)
    (employeeRefId : Option String) (operation : Operation) (oldData : Option Snapshot)
    (newData : Snapshot) (changedBy changeReason : String) : HistoryWrite :=
  match employeeRefId with
  | none => .rejected
  | some ref =>
    if ref = "" then .rejected
    else if minimizeProps newData = [] then .storedWithoutSnapshot
    else
      let built := buildHistory s.nextOid now employeeId ref operation oldData newData
        changedBy changeReason
      let r : HistoryRecord :=
        { built with
          changes := built.changes.map minimizeChange
          snapshot := minimizeProps newData }
      .stored { s with history := s.history ++ [r], nextOid := s.nextOid + 1 } r

/-! ## `models/Employee.js` -/

/-- Mongoose's document layer for the `Employee` model, as the controllers
use it.  It applies the schema of `models/Employee.js` (casting, validators,
defaults, the unique indexes, the timestamps); the engine that does so is
not code of the repository, and the theorems hold whatever it answers.  Both
functions get the collection and the current time. -/
structure EmployeeModel where
  /-- Paths, other than `employeeId`, of the document `Employee.create(fields)`
  inserts, `none` when it throws. -/
  create : List EmployeeDoc → Nat → Snapshot → Option Snapshot
  /-- Paths of the document after `Object.assign(employee, body)` and
  `employee.save()`, `none` when `save` throws. -/
  assignAndSave : List EmployeeDoc → Nat → EmployeeDoc → Snapshot → Option Snapshot

/-- The `pre('validate')` hook (lines 65-70) on a new document that has no
`employeeId`: the id it generates. -/
def generateEmployeeId (now : Nat) : String := "EMP-" ++ toString now

/-- `employee.save()` after assignments that need no casting: the document
is stored as it is, with `updatedAt` refreshed (`timestamps: true`). -/
def EmployeeDoc.save (e : EmployeeDoc) (now : Nat) : EmployeeDoc :=
  { e with paths := e.paths.set "updatedAt" (.date now) }

/-- The `softDelete` method of the employee schema (lines 75-80). -/
def EmployeeDoc.softDelete (e : EmployeeDoc) (now : Nat) : EmployeeDoc :=
  let e1 := { e with paths := e.paths.set "isDeleted" (.bool true) }
  let e2 := { e1 with paths := e1.paths.set "deletedAt" (.date now) }
  let e3 := { e2 with paths := e2.paths.set "employmentStatus" (.str "Inactive") }
  e3.save now

/-! ## Responses -/

/-- An entry of `history` in the response of `getEmployeeHistory`. -/
structure HistoryEntry where
  id : ObjectId
  operation : Operation
  changes : List FieldChange
  timestamp : Nat
  changedBy : String
  changeReason : String
  deriving DecidableEq

/-- The `pagination` object of a listing; `totalPages` is `none` when
`Math.ceil(total / limitNum)` is not a finite number. -/
structure Pagination where
  page : Int
  limit : Int
  total : Nat
  totalPages : Option Int
  deriving DecidableEq

/-- The `version1` and `version2` objects in the response of
`compareVersions`. -/
structure VersionView where
  id : ObjectId
  timestamp : Nat
  snapshot : Snapshot
  deriving DecidableEq

/-- What a controller answers. -/
inductive Response where
  /-- A success answer of the employee controller: the status and its `data`. -/
  | employee (code : Nat) (data : Option Snapshot)
  /-- The 200 answer of `getEmployeeHistory`. -/
  | historyPage (employee : Snapshot) (history : List HistoryEntry) (pagination : Pagination)
  /-- The 200 answer of `getHistoryDetails`: the record, and the employee `populate` found. -/
  | historyDetails (record : HistoryRecord) (populated : Option Snapshot)
  /-- The 200 answer of `compareVersions`. -/
  | comparison (version1 version2 : VersionView) (differences : List Difference)
  /-- A status set by the controller with an error message. -/
  | error (code : Nat) (message : String)
  /-- An exception of the store passed to `next` with no status set. -/
  | thrown
  deriving DecidableEq

/-! ## `employeeController.js` -/

/-- `Employee.findOne` with the filter `_id: id, isDeleted: false`. -/
def findActive (s : State) (id : ObjectId) : Option EmployeeDoc :=
  s.employees.find? (fun e => e._id = id ∧ e.paths.get "isDeleted" = .bool false)

/-- The collection after the document with the `_id` of `e` is replaced by
`e`. -/
def storeEmployee (es : List EmployeeDoc) (e : EmployeeDoc) : List EmployeeDoc :=
  es.map (fun x => if x._id = e._id then e else x)

/-- The object `createEmployee` passes to `Employee.create` (lines 12-32). -/
def createFields (body : Snapshot) : Snapshot :=
  [("fullName", body.get "fullName"),
   ("email", body.get "email"),
   ("phoneNumber", body.get "phoneNumber"),
   ("department", body.get "department"),
   ("designation", body.get "designation"),
   ("salary", body.get "salary"),
   ("employmentStatus",
      if truthy (body.get "employmentStatus") then body.get "employmentStatus"
      else .str "Active"),
   ("dateOfJoining", body.get "dateOfJoining")]

/-- `createEmployee` (lines 10-52).  The fields passed to `Employee.create`
have no `employeeId`, so the hook of the schema generates it.  A record with
no snapshot is not among the outcomes of the history write here and in the
two controllers below, the object of an employee holding its `_id`
(`createHistory_keeps_employee_snapshot`). -/
def createEmployee (M : EmployeeModel) (s : State) (now : Nat) (body : Snapshot) :
    State × Response :=
  match M.create s.employees now (createFields body) with
  | none => (s, .thrown)
  | some paths =>
    let employee : EmployeeDoc :=
      ⟨s.nextOid, paths.set "employeeId" (.str (generateEmployeeId now))⟩
    let s1 : State :=
      { s with employees := s.employees ++ [employee], nextOid := s.nextOid + 1 }
    match createHistory s1 now employee._id employee.employeeId .CREATE
      none employee.toObject "system" "Employee record created" with
    | .stored s2 _ => (s2, .employee 201 (some employee.toObject))
    | .storedWithoutSnapshot => (s1, .employee 201 (some employee.toObject))
    | .rejected => (s1, .thrown)

/-- `updateEmployee` (lines 144-178). -/
def updateEmployee (M : EmployeeModel) (s : State) (now : Nat) (id : ObjectId)
    (body : Snapshot) : State × Response :=
  match findActive s id with
  | none => (s, .error 404 "Employee not found")
  | some found =>
    let oldData := found.toObject
    match M.assignAndSave s.employees now found body with
    | none => (s, .thrown)
    | some paths =>
      let employee : EmployeeDoc := { found with paths := paths }
      let s1 : State := { s with employees := storeEmployee s.employees employee }
      match createHistory s1 now employee._id employee.employeeId .UPDATE
        (some oldData) employee.toObject "system" "Employee record updated" with
      | .stored s2 _ => (s2, .employee 200 (some employee.toObject))
      | .storedWithoutSnapshot => (s1, .employee 200 (some employee.toObject))
      | .rejected => (s1, .thrown)

/-- `deleteEmployee` (lines 185-218). -/
def deleteEmployee (s : State) (now : Nat) (id : ObjectId) : State × Response :=
  match findActive s id with
  | none => (s, .error 404 "Employee not found")
  | some found =>
    let oldData := found.toObject
    let employee := EmployeeDoc.save { found with paths := found.paths.set "isDeleted" (.bool true) } now
    let s1 : State := { s with employees := storeEmployee s.employees employee }
    match createHistory s1 now employee._id employee.employeeId .DELETE
      (some oldData) employee.toObject "system" "Employee record deleted" with
    | .stored s2 _ => (s2, .employee 200 none)
    | .storedWithoutSnapshot => (s1, .employee 200 none)
    | .rejected => (s1, .thrown)

/-! ## `historyController.js` -/

/-- The history records of one employee: `EmployeeHistory.find` with the
filter `employeeId: id`. -/
def recordsOf (s : State) (id : ObjectId) : List HistoryRecord :=
  s.history.filter (fun r => r.employeeId = id)

/-- The cursor's `.sort` on `createdAt: -1`: most recent first. -/
def sortByCreatedAtDesc (l : List HistoryRecord) : List HistoryRecord :=
  l.insertionSort (fun a b => b.createdAt ≤ a.createdAt)

/-- The cursor's `.skip(skip).limit(limit)`: the store rejects a negative
skip, a limit of zero is no limit, and a negative limit counts by its
absolute value. -/
def skipLimit (skip limit : Int) (l : List HistoryRecord) : Option (List HistoryRecord) :=
  if skip < 0 then none
  else
    let rest := l.drop skip.toNat
    some (if limit = 0 then rest else rest.take limit.natAbs)

/-- The `formattedHistory` entry of a record (lines 37-44). -/
def formatRecord (record : HistoryRecord) : HistoryEntry :=
  { id := record._id
    operation := record.operation
    changes := record.changes
    timestamp := record.createdAt
    changedBy := record.changedBy
    changeReason := record.changeReason }

/-- The value of `Math.ceil(total / limitNum)`, `none` when the quotient is
not finite. -/
def totalPages (total : Nat) (limitNum : Int) : Option Int :=
  if limitNum = 0 then none
  else if 0 < limitNum then some ((total + limitNum - 1) / limitNum)
  else some (-((total : Int) / (-limitNum)))

/-- `getEmployeeHistory` (lines 9-66), `page` and `limit` already parsed. -/
def getEmployeeHistory (s : State) (id : ObjectId) (pageNum limitNum : Int) : Response :=
  match s.employees.find? (fun e => e._id = id) with
  | none => .error 404 "Employee not found"
  | some employee =>
    let skip := (pageNum - 1) * limitNum
    match skipLimit skip limitNum (sortByCreatedAtDesc (recordsOf s id)) with
    | none => .thrown
    | some history =>
      let total := (recordsOf s id).length
      .historyPage
        [("id", .oid employee._id), ("employeeId", employee.paths.get "employeeId"),
         ("fullName", employee.paths.get "fullName")]
        (history.map formatRecord)
        { page := pageNum, limit := limitNum, total := total,
          totalPages := totalPages total limitNum }

/-- An id as a request gives it where the route does not validate it: the
version ids in the query of the compare route, the `historyId` parameter of
the details route. -/
inductive QueryId where
  /-- No value, or the empty string: falsy. -/
  | missing
  /-- A value Mongoose casts to the ObjectId `id`. -/
  | wellFormed (id : ObjectId)
  /-- A non-empty value Mongoose cannot cast to an ObjectId: the query throws
  a CastError. -/
  | malformed (raw : String)
  deriving DecidableEq

/-- `getHistoryDetails` (lines 73-93). -/
def getHistoryDetails (s : State) (historyId : QueryId) : Response :=
  match historyId with
  | .malformed _ => .thrown
  | .missing => .error 404 "History record not found"
  | .wellFormed hid =>
    match s.history.find? (fun r => r._id = hid) with
    | none => .error 404 "History record not found"
    | some history =>
      .historyDetails history
        ((s.employees.find? (fun e => e._id = history.employeeId)).map fun e =>
          [("_id", .oid e._id), ("employeeId", e.paths.get "employeeId"),
           ("fullName", e.paths.get "fullName"), ("email", e.paths.get "email")])

/-- The `fields` array of `compareVersions` (lines 127-136). -/
def compareFields : List String :=
  ["fullName", "email", "phoneNumber", "department", "designation", "salary",
   "employmentStatus", "dateOfJoining"]

/-- The body of `fields.forEach` in `compareVersions`: the entry pushed for
`field`, if any. -/
def differenceOf (snapshot1 snapshot2 : Snapshot) (field : String) : Option Difference :=
  let val1 := snapshot1.get field
  let val2 := snapshot2.get field
  if stringify val1 ≠ stringify val2 then some ⟨field, val1, val2⟩ else none

/-- The `differences` array of `compareVersions` (lines 126-149). -/
def computeDifferences (snapshot1 snapshot2 : Snapshot) : List Difference :=
  compareFields.filterMap (differenceOf snapshot1 snapshot2)

/-- `EmployeeHistory.findOne` with the filter `_id: versionId, employeeId: id`. -/
def findVersion (s : State) (id versionId : ObjectId) : Option HistoryRecord :=
  s.history.find? (fun r => r._id = versionId ∧ r.employeeId = id)

/-- `compareVersions` (lines 100-170).  The route validates the `id`
parameter only; the two `findOne` run one after the other, and the first
that cannot cast its version id throws. -/
def compareVersions (s : State) (id : ObjectId) (versionId1 versionId2 : QueryId) :
    Response :=
  match versionId1, versionId2 with
  | .missing, _ => .error 400 "Both version IDs are required for comparison"
  | _, .missing => .error 400 "Both version IDs are required for comparison"
  | .malformed _, _ => .thrown
  | .wellFormed _, .malformed _ => .thrown
  | .wellFormed v1, .wellFormed v2 =>
    match findVersion s id v1, findVersion s id v2 with
    | some version1, some version2 =>
      .comparison ⟨version1._id, version1.createdAt, version1.snapshot⟩
        ⟨version2._id, version2.createdAt, version2.snapshot⟩
        (computeDifferences version1.snapshot version2.snapshot)
    | _, _ => .error 404 "One or both versions not found"

/-! ## The system as a state machine -/

/-- A request to one of the six history-related routes. -/
inductive Request where
  | createEmployee (body : Snapshot)
  | updateEmployee (id : ObjectId) (body : Snapshot)
  | deleteEmployee (id : ObjectId)
  | getEmployeeHistory (id : ObjectId) (page limit : Int)
  | getHistoryDetails (historyId : QueryId)
  | compareVersions (id : ObjectId) (versionId1 versionId2 : QueryId)

/-- The requests that only read. -/
def Request.isRead : Request → Bool
  | .createEmployee _ => false
  | .updateEmployee _ _ => false
  | .deleteEmployee _ => false
  | _ => true

/-- One request served at time `now`. -/
def step (M : EmployeeModel) (s : State) (now : Nat) : Request → State × Response
  | .createEmployee body => createEmployee M s now body
  | .updateEmployee id body => updateEmployee M s now id body
  | .deleteEmployee id => deleteEmployee s now id
  | .getEmployeeHistory id page limit => (s, getEmployeeHistory s id page limit)
  | .getHistoryDetails historyId => (s, getHistoryDetails s historyId)
  | .compareVersions id v1 v2 => (s, compareVersions s id v1 v2)

/-- The states reached from the empty system by serving requests one after
the other, with the time of the last request: the clock never runs
backwards. -/
inductive Reachable (M : EmployeeModel) : State → Nat → Prop where
  | init : Reachable M State.init 0
  | step {s : State} {t : Nat} (now : Nat) (req : Request) :
      Reachable M s t → t ≤ now → Reachable M (step M s now req).1 now

/-- The reachable states of the runs in which every change of the employee
collection came with a history record: no request left the history as it
was and the employees changed, as a history write rejected after the save
does. -/
inductive Recorded (M : EmployeeModel) : State → Nat → Prop where
  | init : Recorded M State.init 0
  | step {s : State} {t : Nat} (now : Nat) (req : Request) :
      Recorded M s t → t ≤ now →
      ((step M s now req).1.history = s.history →
        (step M s now req).1.employees = s.employees) →
      Recorded M (step M s now req).1 now

/-! ## Notions of the specification -/

mutual
/-- Deep equality as the specification words it: exact for scalars,
insensitive to the order of the properties of nested objects. -/
def deepEqual : JsValue → JsValue → Bool
  | .arr xs, .arr ys => deepEqualItems xs ys
  | .obj ps, .obj qs =>
    deepEqualProps ps qs && qs.all (fun q => ps.any (fun p => p.1 == q.1))
  | .undefined, .undefined => true
  | .null, .null => true
  | .bool a, .bool b => a == b
  | .num a, .num b => a == b
  | .str a, .str b => a == b
  | .date a, .date b => a == b
  | .oid a, .oid b => a == b
  | _, _ => false
/-- Deep equality of arrays: item by item. -/
def deepEqualItems : List JsValue → List JsValue → Bool
  | [], [] => true
  | x :: xs, y :: ys => deepEqual x y && deepEqualItems xs ys
  | _, _ => false
/-- Every property of the first list has a deep-equal value under the same
key in the second. -/
def deepEqualProps : List (String × JsValue) → List (String × JsValue) → Bool
  | [], _ => true
  | (k, v) :: ps, qs =>
    (match qs.lookup k with
     | some w => deepEqual v w
     | none => false) && deepEqualProps ps qs
end

/-- Value of a hexadecimal digit. -/
def hexVal (c : Char) : Nat := if 97 ≤ c.toNat then c.toNat - 87 else c.toNat - 48

/-- The code of the character an escape sequence stands for. -/
def unescape : List Char → Nat
  | [] => 0
  | [a] => a.toNat
  | [_, b] =>
    if b = 'b' then 8 else if b = 't' then 9 else if b = 'n' then 10
    else if b = 'f' then 12 else if b = 'r' then 13 else b.toNat
  | _ :: _ :: h => h.foldl (fun a c => a * 16 + hexVal c) 0

/-- The length of the escape sequence a text starts with. -/
def escapeLength : List Char → Nat
  | a :: b :: _ => if a = backslash then (if b = 'u' then 6 else 2) else 1
  | _ => 1

/-- The number a list of decimal digits writes. -/
def decodeDigits (l : List Char) : Nat := l.foldl (fun a c => a * 10 + (c.toNat - 48)) 0

/-- Two values are scalars of the same kind: two strings, two numbers, two
booleans, twice `null` or twice `undefined`. -/
def sameScalarKind : JsValue → JsValue → Bool
  | .str _, .str _ => true
  | .num _, .num _ => true
  | .bool _, .bool _ => true
  | .null, .null => true
  | .undefined, .undefined => true
  | _, _ => false

/-- A snapshot that is stored as it is: each of its values is kept unchanged
(none is `undefined`, none holds an `undefined` or, outside an array, an
object with no property). -/
def Snapshot.kept (o : Snapshot) : Prop :=
  ∀ kv ∈ o, minimizeValue kv.2 = some kv.2

/-- A snapshot with the entries of a change list written into it: for each
entry, `field` is set to `newValue`. -/
def applyChanges (snapshot : Snapshot) (changes : List FieldChange) : Snapshot :=
  changes.foldl (fun o c => o.set c.field c.newValue) snapshot

/-- The entry of a change list seen as an entry of a comparison:
`version1Value` is `oldValue`, `version2Value` is `newValue`. -/
def FieldChange.toDifference (c : FieldChange) : Difference :=
  ⟨c.field, c.oldValue, c.newValue⟩

/-- An entry of a comparison with its two values swapped. -/
def Difference.swap (d : Difference) : Difference :=
  ⟨d.field, d.version2Value, d.version1Value⟩

/-- The `differences` of a response, when it is a comparison. -/
def Response.differences : Response → Option (List Difference)
  | .comparison _ _ ds => some ds
  | _ => none

/-- The `history` and the `total` of a response, when it is a listing. -/
def Response.listing : Response → Option (List HistoryEntry × Nat)
  | .historyPage _ h p => some (h, p.total)
  | _ => none

/-- The `history` of a response: empty when it is no listing. -/
def Response.entries : Response → List HistoryEntry
  | .historyPage _ h _ => h
  | _ => []

/-- The number of pages that cover `n` records, `k` to a page. -/
def pageCount (n k : Nat) : Nat := (n + k - 1) / k

/-- How an UPDATE record `r` follows the record `p` before it in the trail of
one employee: it lists the tracked fields whose serialisation differs
between the two snapshots. -/
def Linked (p r : HistoryRecord) : Prop :=
  r.operation = .UPDATE →
    r.changes = fieldsToTrack.filterMap (changeOf p.snapshot r.snapshot)

/-- The invariant of the two collections at time `t`. -/
structure Inv (s : State) (t : Nat) : Prop where
  /-- Every history record is about a stored employee. -/
  hist_emp : ∀ r ∈ s.history, ∃ e ∈ s.employees, e._id = r.employeeId
  /-- The ids of the stored employees have been handed out. -/
  emp_lt : ∀ e ∈ s.employees, e._id < s.nextOid
  /-- Every stored employee has a history record. -/
  has_record : ∀ e ∈ s.employees, s.history.filter (fun r => r.employeeId = e._id) ≠ []
  /-- The first record of an employee is its creation. -/
  first_create : ∀ id r, (s.history.filter (fun r => r.employeeId = id)).head? = some r →
    r.operation = .CREATE ∧ r.changes = []
  /-- Records are in the order of their `createdAt`. -/
  times_sorted : s.history.Pairwise (fun a b => a.createdAt ≤ b.createdAt)
  /-- No record is from the future. -/
  times_le : ∀ r ∈ s.history, r.createdAt ≤ t

/-- The history is in step with the employee collection. -/
structure Synced (s : State) : Prop where
  /-- The last record of an employee holds the employee as it is stored. -/
  last_snapshot : ∀ e ∈ s.employees,
    ∃ r, (s.history.filter (fun r => r.employeeId = e._id)).getLast? = some r ∧
      r.snapshot = e.toObject
  /-- Consecutive records of an employee are linked. -/
  chain : ∀ id, List.Chain' Linked (s.history.filter (fun r => r.employeeId = id))

/-! ## A store without casting -/

/-- An `EmployeeModel` that casts nothing: it rejects a value no path of the
schema can hold (an array, an object, a missing field on creation) and
stores every other value as it is; `create` adds the schema defaults and the
timestamps, `assignAndSave` writes the properties of the body one by one and
refreshes `updatedAt`. -/
def plainModel : EmployeeModel where
  create := fun _ now fields =>
    if fields.all (fun kv => isScalar kv.2) then
      some (fields ++
        [("isDeleted", .bool false), ("deletedAt", .null), ("createdAt", .date now),
         ("updatedAt", .date now), ("__v", .num 0)])
    else none
  assignAndSave := fun _ now e body =>
    if body.all (fun kv => isScalar kv.2) then
      some ((body.foldl (fun o kv => o.set kv.1 kv.2) e.paths).set "updatedAt" (.date now))
    else none

/-- The request body of the worked scenarios: an active employee with a
salary of 50000. -/
def sampleBody : Snapshot :=
  [("fullName", .str "Asha Rao"), ("email", .str "asha@example.com"),
   ("phoneNumber", .str "555-123-4567"), ("department", .str "Engineering"),
   ("designation", .str "Developer"), ("salary", .num 50000),
   ("employmentStatus", .str "Active"), ("dateOfJoining", .date 1700000000000)]

/-- The system after the sample employee is created at time 1000. -/
def stateA : State := (step plainModel State.init 1000 (.createEmployee sampleBody)).1

/-- The system after the sample employee's salary is raised to 60000 at
time 2000. -/
def stateB : State :=
  (step plainModel stateA 2000 (.updateEmployee 0 (sampleBody.set "salary" (.num 60000)))).1

/-- The system after the sample employee is deleted at time 3000. -/
def stateD : State := (step plainModel stateB 3000 (.deleteEmployee 0)).1

/-- The CREATE record of the sample employee. -/
def recordA : HistoryRecord := stateD.history.get ⟨0, by decide⟩

/-- The UPDATE record of the sample employee. -/
def recordB : HistoryRecord := stateD.history.get ⟨1, by decide⟩

/-- The DELETE record of the sample employee. -/
def recordD : HistoryRecord := stateD.history.get ⟨2, by decide⟩

/-- The system after an update of the sample employee at time 2000 that
raises the salary and clears `employeeId`: the employee is saved and the
history write is rejected. -/
def stateL1 : State :=
  (step plainModel stateA 2000
    (.updateEmployee 0 [("employeeId", .null), ("salary", .num 60000)])).1

/-- The system after a second update at time 3000 gives the `employeeId`
back. -/
def stateL2 : State :=
  (step plainModel stateL1 3000 (.updateEmployee 0 [("employeeId", .str "EMP-1000")])).1

/-- A snapshot whose department is a nested object. -/
def snapshotXY : Snapshot :=
  [("department", .obj [("x", .num 1), ("y", .num 2)])]

/-- The same snapshot with the properties of the nested object in the other
order. -/
def snapshotYX : Snapshot :=
  [("department", .obj [("y", .num 2), ("x", .num 1)])]

/-! ## The field differ -/

theorem compareFields_eq : compareFields = fieldsToTrack := rfl

theorem mem_filterMap_changeOf (a b : Snapshot) (fields : List String) (f : String) :
    f ∈ (fields.filterMap (changeOf a b)).map (fun c => c.field) ↔
      f ∈ fields ∧ stringify (a.get f) ≠ stringify (b.get f) := by
  simp only [List.mem_map, List.mem_filterMap, changeOf]
  constructor
  · rintro ⟨c, ⟨g, hg, hc⟩, rfl⟩
    by_cases h : stringify (a.get g) = stringify (b.get g)
    · simp [h] at hc
    · simp only [ne_eq, h, not_false_eq_true, ↓reduceIte, Option.some.injEq] at hc
      subst hc
      exact ⟨hg, h⟩
  · rintro ⟨hf, h⟩
    exact ⟨⟨f, a.get f, b.get f⟩, ⟨f, hf, by simp [h]⟩, rfl⟩

theorem differenceOf_eq (a b : Snapshot) (f : String) :
    differenceOf a b f = (changeOf a b f).map FieldChange.toDifference := by
  unfold differenceOf changeOf
  by_cases h : stringify (a.get f) = stringify (b.get f) <;>
    simp [h, FieldChange.toDifference]

theorem computeDifferences_eq (a b : Snapshot) :
    computeDifferences a b =
      (computeChanges .UPDATE (some a) b).map FieldChange.toDifference := by
  simp only [computeDifferences, computeChanges, compareFields_eq, List.map_filterMap]
  congr 1
  funext f
  exact differenceOf_eq a b f

theorem differenceOf_swap (a b : Snapshot) (f : String) :
    differenceOf b a f = (differenceOf a b f).map Difference.swap := by
  unfold differenceOf
  by_cases h : stringify (a.get f) = stringify (b.get f)
  · simp [h]
  · have h' : ¬ stringify (b.get f) = stringify (a.get f) := fun e => h e.symm
    simp [h, h', Difference.swap]

theorem computeDifferences_swap (a b : Snapshot) :
    computeDifferences b a = (computeDifferences a b).map Difference.swap := by
  simp only [computeDifferences, List.map_filterMap]
  congr 1
  funext f
  exact differenceOf_swap a b f

theorem computeDifferences_self (a : Snapshot) : computeDifferences a a = [] := by
  simp [computeDifferences, differenceOf]

theorem map_field_swap (ds : List Difference) :
    (ds.map Difference.swap).map (fun d => d.field) = ds.map (fun d => d.field) := by
  simp [List.map_map, Function.comp_def, Difference.swap]

/-! ## Serialisation of scalars -/

theorem unicode_escape (n : Nat) (h : n < 32) :
    unescape (backslash :: 'u' :: padHex 4 n) = n ∧ (padHex 4 n).length = 4 := by
  revert n
  decide

theorem char_toNat_inj {c d : Char} (h : c.toNat = d.toNat) : c = d := by
  apply Char.ext
  apply UInt32.ext  -- ?
  exact h

theorem unescape_escapeChar (c : Char) : unescape (escapeChar c) = c.toNat := by
  unfold escapeChar
  split_ifs with h1 h2 h3 h4 h5 h6 h7 h8
  · rw [h1]; rfl
  · rw [h2]; rfl
  · rw [h3]; rfl
  · rw [h4]; rfl
  · rw [h5]; rfl
  · rw [h6]; rfl
  · rw [h7]; rfl
  · exact (unicode_escape _ h8).1
  · rfl

theorem escapeChar_injective {c d : Char} (h : escapeChar c = escapeChar d) : c = d :=
  char_toNat_inj (by rw [← unescape_escapeChar c, ← unescape_escapeChar d, h])

theorem escapeLength_escapeChar (c : Char) (r : List Char) :
    escapeLength (escapeChar c ++ r) = (escapeChar c).length := by
  unfold escapeChar
  split_ifs with h1 h2 h3 h4 h5 h6 h7 h8
  · rfl
  · rfl
  · rfl
  · rfl
  · rfl
  · rfl
  · rfl
  · simp [escapeLength, (unicode_escape _ h8).2]
  · have hc : c ≠ backslash := by
      intro e
      rw [e] at h7
      exact h7 rfl
    cases r with
    | nil => rfl
    | cons b r => simp [escapeLength, hc]

theorem escapeChar_ne_nil (c : Char) : escapeChar c ≠ [] := by
  unfold escapeChar
  split_ifs <;> simp

theorem escapeChars_injective : ∀ {l m : List Char}, escapeChars l = escapeChars m → l = m
  | [], [], _ => rfl
  | [], d :: ds, h => by
    have h1 : escapeChar d = [] := (List.append_eq_nil.mp h.symm).1
    exact absurd h1 (escapeChar_ne_nil d)
  | c :: cs, [], h => by
    have h1 : escapeChar c = [] := (List.append_eq_nil.mp h).1
    exact absurd h1 (escapeChar_ne_nil c)
  | c :: cs, d :: ds, h => by
    simp only [escapeChars] at h
    have hl : (escapeChar c).length = (escapeChar d).length := by
      rw [← escapeLength_escapeChar c (escapeChars cs), ← escapeLength_escapeChar d (escapeChars ds), h]
    obtain ⟨h1, h2⟩ := List.append_inj h hl
    rw [escapeChar_injective h1, escapeChars_injective h2]

theorem quote_injective {s t : String} (h : quote s = quote t) : s = t := by
  unfold quote at h
  have h1 : escapeChars s.data ++ [dquote] = escapeChars t.data ++ [dquote] := by
    injection h with h
    injection h
  have h2 := List.append_cancel_right h1
  exact String.ext (escapeChars_injective h2)

theorem digitChar_val (m : Nat) (h : m < 10) : (Nat.digitChar m).toNat - 48 = m := by
  revert m
  decide

theorem digitChar_ne_minus (m : Nat) (h : m < 10) : Nat.digitChar m ≠ '-' := by
  revert m
  decide

theorem foldl_toDigitsCore (fuel : Nat) :
    ∀ (n : Nat) (ds : List Char), n < fuel →
      (Nat.toDigitsCore 10 fuel n ds).foldl (fun a c => a * 10 + (c.toNat - 48)) 0 =
        ds.foldl (fun a c => a * 10 + (c.toNat - 48)) n := by
  induction fuel with
  | zero => intro n ds h; omega
  | succ fuel ih =>
    intro n ds h
    simp only [Nat.toDigitsCore]
    split_ifs with h0
    · have hn : n % 10 = n := Nat.mod_eq_of_lt (by omega)
      simp only [List.foldl_cons, Nat.zero_mul, Nat.zero_add]
      rw [digitChar_val _ (Nat.mod_lt _ (by decide)), hn]
    · rw [ih (n / 10) _ (by omega)]
      simp only [List.foldl_cons]
      rw [digitChar_val _ (Nat.mod_lt _ (by decide))]
      congr 1
      omega

theorem decodeDigits_toDigits (n : Nat) : decodeDigits (Nat.toDigits 10 n) = n := by
  unfold decodeDigits Nat.toDigits
  rw [foldl_toDigitsCore (n + 1) n [] (by omega)]
  rfl

theorem minus_not_mem_toDigitsCore (fuel : Nat) :
    ∀ (n : Nat) (ds : List Char), '-' ∉ ds → '-' ∉ Nat.toDigitsCore 10 fuel n ds := by
  induction fuel with
  | zero => intro n ds h; simpa [Nat.toDigitsCore] using h
  | succ fuel ih =>
    intro n ds h
    have hd : '-' ∉ Nat.digitChar (n % 10) :: ds := by
      intro hm
      rcases List.mem_cons.mp hm with hm | hm
      · exact digitChar_ne_minus _ (Nat.mod_lt _ (by decide)) hm.symm
      · exact h hm
    simp only [Nat.toDigitsCore]
    split_ifs with h0
    · exact hd
    · exact ih _ _ hd

theorem toString_int_injective {a b : Int} (h : toString a = toString b) : a = b := by
  have hdata := congrArg String.data h
  cases a with
  | ofNat m =>
    cases b with
    | ofNat k =>
      have h1 : Nat.toDigits 10 m = Nat.toDigits 10 k := hdata
      have h2 := congrArg decodeDigits h1
      rw [decodeDigits_toDigits, decodeDigits_toDigits] at h2
      rw [h2]
    | negSucc k =>
      have h1 : Nat.toDigits 10 m = '-' :: Nat.toDigits 10 (k + 1) := hdata
      have h2 : '-' ∈ Nat.toDigits 10 m := by rw [h1]; exact List.mem_cons_self _ _
      exact absurd h2 (minus_not_mem_toDigitsCore _ _ _ (by simp))
  | negSucc m =>
    cases b with
    | ofNat k =>
      have h1 : '-' :: Nat.toDigits 10 (m + 1) = Nat.toDigits 10 k := hdata
      have h2 : '-' ∈ Nat.toDigits 10 k := by rw [← h1]; exact List.mem_cons_self _ _
      exact absurd h2 (minus_not_mem_toDigitsCore _ _ _ (by simp))
    | negSucc k =>
      have h1 : '-' :: Nat.toDigits 10 (m + 1) = '-' :: Nat.toDigits 10 (k + 1) := hdata
      have h2 := congrArg decodeDigits (List.cons.inj h1).2
      rw [decodeDigits_toDigits, decodeDigits_toDigits] at h2
      have : m = k := by omega
      rw [this]

theorem stringify_eq_iff_of_sameScalarKind {v w : JsValue} (h : sameScalarKind v w = true) :
    stringify v = stringify w ↔ v = w := by
  cases v <;> cases w <;> simp only [sameScalarKind, Bool.false_eq_true] at h
  · simp
  · simp
  · rename_i p q
    cases p <;> cases q <;> simp [stringify]
  · constructor
    · intro e
      simp only [stringify, Option.some.injEq] at e
      rw [toString_int_injective e]
    · intro e
      rw [e]
  · constructor
    · intro e
      simp only [stringify, Option.some.injEq] at e
      rw [quote_injective e]
    · intro e
      rw [e]

theorem date_serialises_as_its_text :
    stringify (.date 0) = stringify (.str "1970-01-01T00:00:00.000Z") := by
  decide

/-! ## Claims about the recorder and the comparator -/

/-- C1, as amended: for all snapshots `a`, `b` and every tracked field `f`,
`f` is named in the changes of `createHistory('UPDATE', a, b)`, and in the
differences `compareVersions` computes over `a` and `b`, if and only if
`JSON.stringify(a[f])` and `JSON.stringify(b[f])` differ; when `a[f]` and
`b[f]` are two strings, two integers, two booleans, twice `null` or twice
`undefined`, that is if and only if `a[f]` and `b[f]` differ. -/
theorem diff_lists_field_iff_stringify_differs (a b : Snapshot) (f : String)
    (hf : f ∈ fieldsToTrack) :
    (f ∈ (computeChanges .UPDATE (some a) b).map (fun c => c.field) ↔
        stringify (a.get f) ≠ stringify (b.get f)) ∧
    (f ∈ (computeDifferences a b).map (fun d => d.field) ↔
        stringify (a.get f) ≠ stringify (b.get f)) ∧
    (sameScalarKind (a.get f) (b.get f) = true →
      ((f ∈ (computeChanges .UPDATE (some a) b).map (fun c => c.field) ↔
          a.get f ≠ b.get f) ∧
       (f ∈ (computeDifferences a b).map (fun d => d.field) ↔ a.get f ≠ b.get f))) := by
  have h1 : f ∈ (computeChanges .UPDATE (some a) b).map (fun c => c.field) ↔
      stringify (a.get f) ≠ stringify (b.get f) := by
    rw [computeChanges, mem_filterMap_changeOf]
    exact ⟨fun h => h.2, fun h => ⟨hf, h⟩⟩
  have h2 : f ∈ (computeDifferences a b).map (fun d => d.field) ↔
      stringify (a.get f) ≠ stringify (b.get f) := by
    rw [computeDifferences_eq, List.map_map]
    exact h1
  refine ⟨h1, h2, fun hk => ?_⟩
  have h3 := stringify_eq_iff_of_sameScalarKind hk
  exact ⟨h1.trans (not_congr h3), h2.trans (not_congr h3)⟩

/-- Witness of C1 as amended: the salary raise of scenario B. -/
theorem diff_lists_field_iff_stringify_differs_witness :
    "salary" ∈ fieldsToTrack ∧
    sameScalarKind (sampleBody.get "salary")
      ((sampleBody.set "salary" (.num 60000)).get "salary") = true ∧
    ("salary" ∈ (computeChanges .UPDATE (some sampleBody)
        (sampleBody.set "salary" (.num 60000))).map (fun c => c.field) ↔
      sampleBody.get "salary" ≠ (sampleBody.set "salary" (.num 60000)).get "salary") :=
  ⟨by decide, by decide,
   ((diff_lists_field_iff_stringify_differs sampleBody
      (sampleBody.set "salary" (.num 60000)) "salary" (by decide)).2.2 (by decide)).1⟩

/-- C1, counterexample: the claim as stated fails.  Two departments that are
the same nested object with its properties in a different order are
deep-equal, and `department` is still listed as changed. -/
theorem diff_not_order_insensitive :
    ¬ ∀ (a b : Snapshot) (f : String), f ∈ fieldsToTrack →
        (f ∈ (computeChanges .UPDATE (some a) b).map (fun c => c.field) ↔
          deepEqual (a.get f) (b.get f) = false) := by
  intro h
  have h1 := (h snapshotXY snapshotYX "department" (by decide)).1 (by decide)
  revert h1
  decide

theorem minimizeValue_of_isScalar {v : JsValue} (h : isScalar v = true) :
    minimizeValue v = some v := by
  cases v <;> simp [isScalar] at h <;> rfl

theorem minimizeProps_of_kept : ∀ {o : Snapshot}, Snapshot.kept o → minimizeProps o = o
  | [], _ => rfl
  | (k, v) :: ps, h => by
    have hv : minimizeValue v = some v := h (k, v) (List.mem_cons_self _ _)
    have hps : Snapshot.kept ps := fun kv hkv => h kv (List.mem_cons_of_mem _ hkv)
    simp only [minimizeProps, hv, minimizeProps_of_kept hps]

theorem kept_get {o : Snapshot} (h : Snapshot.kept o) (f : String) :
    (minimizeValue (o.get f)).getD .undefined = o.get f := by
  induction o with
  | nil => rfl
  | cons kv ps ih =>
    obtain ⟨k, v⟩ := kv
    have hv : minimizeValue v = some v := h (k, v) (List.mem_cons_self _ _)
    by_cases hk : k = f
    · simp [Snapshot.get, hk, hv]
    · simp only [Snapshot.get, if_neg hk]
      exact ih (fun kv hkv => h kv (List.mem_cons_of_mem _ hkv))

theorem minimizeChange_changeOf {a b : Snapshot} (ha : Snapshot.kept a)
    (hb : Snapshot.kept b) (f : String) :
    (changeOf a b f).map minimizeChange = changeOf a b f := by
  unfold changeOf
  by_cases h : stringify (a.get f) = stringify (b.get f)
  · simp [h]
  · simp [h, minimizeChange, kept_get ha, kept_get hb]

theorem map_minimizeChange_computeChanges (op : Operation) (oldData : Option Snapshot)
    (newData : Snapshot) (hold : ∀ b, oldData = some b → Snapshot.kept b)
    (hnew : Snapshot.kept newData) :
    (computeChanges op oldData newData).map minimizeChange =
      computeChanges op oldData newData := by
  cases op <;> cases oldData <;> simp only [computeChanges, List.map_nil]
  rename_i before
  rw [List.map_filterMap]
  congr 1
  funext f
  exact minimizeChange_changeOf (hold before rfl) hnew f

theorem toObject_kept (e : EmployeeDoc) : Snapshot.kept e.toObject := by
  intro kv hkv
  rcases List.mem_cons.mp hkv with h | h
  · rw [h]
    rfl
  · exact minimizeValue_of_isScalar (by simpa using (List.mem_filter.mp h).2)

theorem createHistory_stored (s : State) (now : Nat) (employeeId : ObjectId)
    (ref : String) (op : Operation) (oldData : Option Snapshot) (newData : Snapshot)
    (changedBy changeReason : String) (href : ref ≠ "") (hnew : newData ≠ [])
    (hold : ∀ b, oldData = some b → Snapshot.kept b) (hkept : Snapshot.kept newData) :
    createHistory s now employeeId (some ref) op oldData newData changedBy changeReason =
      .stored
        ⟨s.employees,
         s.history ++ [buildHistory s.nextOid now employeeId ref op oldData newData
           changedBy changeReason],
         s.nextOid + 1⟩
        (buildHistory s.nextOid now employeeId ref op oldData newData changedBy
          changeReason) := by
  simp only [createHistory, if_neg href, minimizeProps_of_kept hkept, if_neg hnew,
    buildHistory, map_minimizeChange_computeChanges op oldData newData hold hkept]

theorem createHistory_keeps_employee_snapshot (s : State) (now : Nat)
    (employeeId : ObjectId) (ref : Option String) (op : Operation)
    (oldData : Option Snapshot) (e : EmployeeDoc) (changedBy changeReason : String) :
    createHistory s now employeeId ref op oldData e.toObject changedBy changeReason ≠
      .storedWithoutSnapshot := by
  have hne : ¬ minimizeProps e.toObject = [] := by
    rw [minimizeProps_of_kept (toObject_kept e)]
    simp [EmployeeDoc.toObject]
  cases ref with
  | none => simp [createHistory]
  | some r =>
    by_cases hr : r = ""
    · simp [createHistory, hr]
    · simp [createHistory, hr, hne]

theorem createHistory_rejected_of_invalid (s : State) (now : Nat) (employeeId : ObjectId)
    (ref : Option String) (op : Operation) (oldData : Option Snapshot) (newData : Snapshot)
    (changedBy changeReason : String) (href : ref = none ∨ ref = some "") :
    createHistory s now employeeId ref op oldData newData changedBy changeReason =
      .rejected := by
  rcases href with h | h <;> subst h <;> simp [createHistory]

/-- C3, counterexample: the claim as stated fails.  `employeeRefId` is
`required` in the history schema, so for a subject whose `employeeRefId` is
`null` the call persists no record. -/
theorem createHistory_rejects_missing_ref :
    ¬ ∀ (s : State) (now : Nat) (employeeId : ObjectId) (employeeRefId : Option String)
        (op : Operation) (oldData : Option Snapshot) (newData : Snapshot)
        (changedBy changeReason : String),
        ∃ (s2 : State) (r : HistoryRecord),
          createHistory s now employeeId employeeRefId op oldData newData changedBy
            changeReason = .stored s2 r ∧
          s2.history = s.history ++ [r] ∧ r.snapshot = newData := by
  intro h
  obtain ⟨s2, r, h1, _⟩ := h State.init 0 0 none .CREATE none sampleBody "system" ""
  simp [createHistory] at h1

/-- C3, as amended: for a subject whose `employeeRefId` is a non-empty string
and snapshots that are stored as they are (the `after` snapshot not empty,
no `undefined` value and no empty object in either), `createHistory`
appends one record whose snapshot is the `after` snapshot; its changes are
empty for CREATE and DELETE, and for UPDATE they are the output of the field
differ on `(before, after)`, empty when `before` is absent. -/
theorem createHistory_changes_only_for_update (s : State) (now : Nat)
    (employeeId : ObjectId) (ref : String) (oldData : Option Snapshot)
    (newData : Snapshot) (changedBy changeReason : String)
    (href : ref ≠ "") (hnew : newData ≠ [])
    (hbefore : ∀ before, oldData = some before → Snapshot.kept before)
    (hafter : Snapshot.kept newData) :
    ∀ op : Operation, ∃ r : HistoryRecord,
      createHistory s now employeeId (some ref) op oldData newData changedBy changeReason =
        .stored ⟨s.employees, s.history ++ [r], s.nextOid + 1⟩ r ∧
      r.snapshot = newData ∧ r.operation = op ∧
      r.employeeId = employeeId ∧ r.employeeRefId = ref ∧
      r.changedBy = changedBy ∧ r.changeReason = changeReason ∧
      r.changes =
        (if op = .UPDATE then
          (oldData.map fun before => fieldsToTrack.filterMap (changeOf before newData)).getD []
         else []) := by
  intro op
  refine ⟨_, createHistory_stored s now employeeId ref op oldData newData changedBy
    changeReason href hnew hbefore hafter, rfl, rfl, rfl, rfl, rfl, rfl, ?_⟩
  cases op <;> cases oldData <;> rfl

theorem sampleBody_kept : Snapshot.kept sampleBody := by
  intro kv hkv
  simp only [sampleBody, List.mem_cons, List.mem_singleton, List.not_mem_nil, or_false] at hkv
  rcases hkv with h | h | h | h | h | h | h | h <;> rw [h] <;> rfl

/-- Witness of C3 as amended: the three operations on the sample
snapshot. -/
theorem createHistory_changes_only_for_update_witness :
    "EMP-1000" ≠ "" ∧ sampleBody ≠ [] ∧ Snapshot.kept sampleBody ∧
    ∀ op : Operation, ∃ r : HistoryRecord,
      createHistory State.init 1000 0 (some "EMP-1000") op (some sampleBody) sampleBody
        "system" "" =
        .stored ⟨State.init.employees, State.init.history ++ [r], State.init.nextOid + 1⟩ r ∧
      r.snapshot = sampleBody ∧ r.operation = op ∧
      r.employeeId = 0 ∧ r.employeeRefId = "EMP-1000" ∧
      r.changedBy = "system" ∧ r.changeReason = "" ∧
      r.changes =
        (if op = .UPDATE then
          ((some sampleBody).map fun before =>
            fieldsToTrack.filterMap (changeOf before sampleBody)).getD []
         else []) :=
  ⟨by decide, by decide, sampleBody_kept,
   createHistory_changes_only_for_update State.init 1000 0 "EMP-1000" (some sampleBody)
     sampleBody "system" "" (by decide) (by decide)
     (fun before hb => by
       rw [← Option.some.inj hb]
       exact sampleBody_kept)
     sampleBody_kept⟩

/-- C7: swapping the two versions of a comparison gives the same fields in
the same order with `version1Value` and `version2Value` swapped (a failed
comparison fails both ways), and comparing a version with itself gives no
difference. -/
theorem compareVersions_symmetric (s : State) (id : ObjectId) (q1 q2 : QueryId)
    (v : ObjectId) :
    (compareVersions s id q2 q1).differences =
        ((compareVersions s id q1 q2).differences).map (List.map Difference.swap) ∧
    ((compareVersions s id q2 q1).differences).map (List.map (fun d => d.field)) =
      ((compareVersions s id q1 q2).differences).map (List.map (fun d => d.field)) ∧
    ((compareVersions s id (.wellFormed v) (.wellFormed v)).differences = some [] ∨
      findVersion s id v = none) := by
  have key : (compareVersions s id q2 q1).differences =
      ((compareVersions s id q1 q2).differences).map (List.map Difference.swap) := by
    cases q1 with
    | missing => cases q2 <;> rfl
    | malformed raw => cases q2 <;> rfl
    | wellFormed v1 =>
      cases q2 with
      | missing => rfl
      | malformed raw => rfl
      | wellFormed v2 =>
        simp only [compareVersions]
        cases h1 : findVersion s id v1 <;> cases h2 : findVersion s id v2 <;>
          simp only [Response.differences, Option.map_none', Option.map_some']
        exact congrArg some (computeDifferences_swap _ _)
  refine ⟨key, ?_, ?_⟩
  · rw [key, Option.map_map]
    congr 1
    funext ds
    exact map_field_swap ds
  · simp only [compareVersions]
    cases h1 : findVersion s id v
    · exact Or.inr rfl
    · exact Or.inl (by simp [Response.differences, computeDifferences_self])

theorem findVersion_eq_none (s : State) (id v : ObjectId) :
    findVersion s id v = none ↔ ∀ r ∈ s.history, r._id = v → r.employeeId ≠ id := by
  simp [findVersion, List.find?_eq_none]

theorem findVersion_eq_some {s : State} {id v : ObjectId} {r : HistoryRecord}
    (h : findVersion s id v = some r) : r ∈ s.history ∧ r._id = v ∧ r.employeeId = id := by
  unfold findVersion at h
  have h1 := List.mem_of_find?_eq_some h
  have h2 := List.find?_some h
  simp only [decide_eq_true_eq] at h2
  exact ⟨h1, h2.1, h2.2⟩

/-- C8, counterexample: the claim as stated fails.  The version ids are
query values the route does not validate; for a second id that cannot be
cast to an ObjectId the second `findOne` throws, and the answer is not the
404 although the id names no record. -/
theorem compareVersions_throws_on_malformed_id :
    ¬ ∀ (s : State) (id : ObjectId) (q1 q2 : QueryId),
        q1 ≠ .missing → q2 ≠ .missing →
        (compareVersions s id q1 q2 = .error 404 "One or both versions not found" ↔
          (∀ r ∈ s.history, q1 = .wellFormed r._id → r.employeeId ≠ id) ∨
          (∀ r ∈ s.history, q2 = .wellFormed r._id → r.employeeId ≠ id)) := by
  intro h
  have h1 := (h stateD 0 (.wellFormed 1) (.malformed "not-an-id") (by decide)
    (by decide)).2 (Or.inr (by decide))
  revert h1
  decide

/-- C8, as amended: with two version ids that cast to ObjectIds,
`compareVersions` answers 404 exactly when one of the ids names no history
record of the subject (no record at all, or only a record of another
subject); otherwise it answers with both versions, each the record with the
requested id and of the requested subject, never with one of them alone. -/
theorem compareVersions_not_found_iff (s : State) (id v1 v2 : ObjectId) :
    (compareVersions s id (.wellFormed v1) (.wellFormed v2) =
        .error 404 "One or both versions not found" ↔
      (∀ r ∈ s.history, r._id = v1 → r.employeeId ≠ id) ∨
      (∀ r ∈ s.history, r._id = v2 → r.employeeId ≠ id)) ∧
    (compareVersions s id (.wellFormed v1) (.wellFormed v2) =
        .error 404 "One or both versions not found" ∨
      ∃ r1 ∈ s.history, ∃ r2 ∈ s.history,
        r1._id = v1 ∧ r1.employeeId = id ∧ r2._id = v2 ∧ r2.employeeId = id ∧
        compareVersions s id (.wellFormed v1) (.wellFormed v2) =
          .comparison ⟨r1._id, r1.createdAt, r1.snapshot⟩
            ⟨r2._id, r2.createdAt, r2.snapshot⟩
            (computeDifferences r1.snapshot r2.snapshot)) := by
  rw [← findVersion_eq_none, ← findVersion_eq_none]
  simp only [compareVersions]
  cases h1 : findVersion s id v1 with
  | none => simp
  | some r1 =>
    cases h2 : findVersion s id v2 with
    | none => simp
    | some r2 =>
      obtain ⟨m1, e1, s1⟩ := findVersion_eq_some h1
      obtain ⟨m2, e2, s2⟩ := findVersion_eq_some h2
      refine ⟨by simp, Or.inr ⟨r1, m1, r2, m2, e1, s1, e2, s2, rfl⟩⟩

/-- C10: the comparator and the recorder track the same fields in the same
order, so on any two snapshots the differences of `compareVersions` are the
changes of `createHistory('UPDATE', a, b)` entry for entry, with
`version1Value = oldValue` and `version2Value = newValue`; and comparing the
before-snapshot of an UPDATE record with the record's own snapshot gives the
record's changes. -/
theorem comparator_agrees_with_recorder (a b : Snapshot) (s : State) (now : Nat)
    (employeeId : ObjectId) (employeeRefId : String) (changedBy changeReason : String) :
    compareFields = fieldsToTrack ∧
    computeDifferences a b =
      (computeChanges .UPDATE (some a) b).map FieldChange.toDifference ∧
    computeDifferences a
        (buildHistory s.nextOid now employeeId employeeRefId .UPDATE (some a) b changedBy
          changeReason).snapshot =
      (buildHistory s.nextOid now employeeId employeeRefId .UPDATE (some a) b changedBy
          changeReason).changes.map FieldChange.toDifference :=
  ⟨rfl, computeDifferences_eq a b, computeDifferences_eq a b⟩

/-! ## Pagination -/

instance : IsTotal HistoryRecord (fun a b => b.createdAt ≤ a.createdAt) :=
  ⟨fun a b => Nat.le_total b.createdAt a.createdAt⟩

instance : IsTrans HistoryRecord (fun a b => b.createdAt ≤ a.createdAt) :=
  ⟨fun _ _ _ hab hbc => Nat.le_trans hbc hab⟩

theorem flatMap_drop_take {α : Type} (l : List α) (k m : Nat) :
    (List.range m).flatMap (fun i => (l.drop (i * k)).take k) = l.take (m * k) := by
  induction m with
  | zero => simp
  | succ m ih =>
    rw [List.range_succ, List.flatMap_append, ih, Nat.succ_mul, List.take_add]
    simp

theorem le_pageCount_mul (n k : Nat) (hk : 1 ≤ k) : n ≤ pageCount n k * k := by
  unfold pageCount
  have h1 := Nat.div_add_mod (n + k - 1) k
  have h2 := Nat.mod_lt (n + k - 1) (show k > 0 from hk)
  rw [Nat.mul_comm] at h1
  generalize (n + k - 1) / k * k = x at h1 ⊢
  generalize (n + k - 1) % k = y at h1 h2
  omega

theorem getEmployeeHistory_listing (s : State) (id : ObjectId) (e : EmployeeDoc)
    (page k : Nat) (he : s.employees.find? (fun e => e._id = id) = some e)
    (hk : 1 ≤ k) (hp : 1 ≤ page) :
    getEmployeeHistory s id page k =
      .historyPage
        [("id", .oid e._id), ("employeeId", e.paths.get "employeeId"),
         ("fullName", e.paths.get "fullName")]
        ((((sortByCreatedAtDesc (recordsOf s id)).drop ((page - 1) * k)).take k).map
          formatRecord)
        { page := page, limit := k, total := (recordsOf s id).length,
          totalPages := totalPages (recordsOf s id).length k } := by
  have hskip : ((page : Int) - 1) * (k : Int) = (((page - 1) * k : Nat) : Int) := by
    rw [Nat.cast_mul, Nat.cast_sub hp]
    simp
  have hk0 : ¬ ((k : Int) = 0) := by omega
  simp only [getEmployeeHistory, he, hskip, skipLimit]
  have hneg : ¬ ((((page - 1) * k : Nat) : Int) < 0) := by omega
  simp only [hneg, hk0, if_false, Int.toNat_ofNat, Int.natAbs_ofNat]

/-- C9: for an existing subject with `n` history records and a page size
`k ≥ 1`, page `page ≥ 1` of `getEmployeeHistory` holds the records at
positions `(page-1)*k .. page*k-1` of the subject's records sorted by
`createdAt` descending, each shown with its id, operation, changes,
`createdAt`, `changedBy` and `changeReason`, with `total = n`; the pages
`1 .. ceil(n/k)` put one after the other are the whole sorted list, so their
lengths sum to `n`; and every page after `ceil(n/k)` is an empty listing with
`total = n`. -/
theorem getEmployeeHistory_pages (s : State) (id : ObjectId) (k : Nat)
    (hs : (s.employees.find? (fun e => e._id = id)).isSome = true) (hk : 1 ≤ k) :
    (∀ r : HistoryRecord,
      formatRecord r =
        ⟨r._id, r.operation, r.changes, r.createdAt, r.changedBy, r.changeReason⟩) ∧
    (sortByCreatedAtDesc (recordsOf s id)).Sorted (fun a b => b.createdAt ≤ a.createdAt) ∧
    (sortByCreatedAtDesc (recordsOf s id)).Perm (recordsOf s id) ∧
    (∀ page : Nat, 1 ≤ page →
      (getEmployeeHistory s id page k).listing =
        some ((((sortByCreatedAtDesc (recordsOf s id)).drop ((page - 1) * k)).take k).map
          (fun r => ⟨r._id, r.operation, r.changes, r.createdAt, r.changedBy,
            r.changeReason⟩), (recordsOf s id).length)) ∧
    (List.range (pageCount (recordsOf s id).length k)).flatMap
        (fun i => (getEmployeeHistory s id ((i + 1 : Nat) : Int) k).entries) =
      (sortByCreatedAtDesc (recordsOf s id)).map
        (fun r => ⟨r._id, r.operation, r.changes, r.createdAt, r.changedBy,
          r.changeReason⟩) ∧
    ((List.range (pageCount (recordsOf s id).length k)).map
        (fun i => (getEmployeeHistory s id ((i + 1 : Nat) : Int) k).entries.length)).sum =
      (recordsOf s id).length ∧
    (∀ page : Nat, pageCount (recordsOf s id).length k < page →
      (getEmployeeHistory s id page k).listing = some ([], (recordsOf s id).length)) := by
  obtain ⟨e, he⟩ := Option.isSome_iff_exists.mp hs
  have hfmt : (fun r : HistoryRecord => (⟨r._id, r.operation, r.changes, r.createdAt,
      r.changedBy, r.changeReason⟩ : HistoryEntry)) = formatRecord := rfl
  rw [hfmt]
  have hlen : (sortByCreatedAtDesc (recordsOf s id)).length = (recordsOf s id).length :=
    List.length_insertionSort _ _
  have hcover := le_pageCount_mul (recordsOf s id).length k hk
  have hjoin : (List.range (pageCount (recordsOf s id).length k)).flatMap
        (fun i => (getEmployeeHistory s id ((i + 1 : Nat) : Int) k).entries) =
      (sortByCreatedAtDesc (recordsOf s id)).map formatRecord := by
    have hfun : (fun i : Nat => (getEmployeeHistory s id ((i + 1 : Nat) : Int) k).entries) =
        fun i => (((sortByCreatedAtDesc (recordsOf s id)).map formatRecord).drop (i * k)).take k := by
      funext i
      rw [getEmployeeHistory_listing s id e (i + 1) k he hk (by omega)]
      simp [Response.entries, List.map_take, List.map_drop]
    rw [hfun, flatMap_drop_take]
    exact List.take_of_length_le (by rw [List.length_map, hlen]; exact hcover)
  refine ⟨fun _ => rfl, List.sorted_insertionSort _ _, List.perm_insertionSort _ _, ?_,
    hjoin, ?_, ?_⟩
  · intro page hp
    rw [getEmployeeHistory_listing s id e page k he hk hp]
    rfl
  · have hl := congrArg List.length hjoin
    rw [List.length_flatMap, List.length_map, hlen] at hl
    exact hl
  · intro page hp
    rw [getEmployeeHistory_listing s id e page k he hk (by omega)]
    have hdrop : (sortByCreatedAtDesc (recordsOf s id)).drop ((page - 1) * k) = [] := by
      apply List.drop_of_length_le
      rw [hlen]
      have h1 : pageCount (recordsOf s id).length k * k ≤ (page - 1) * k :=
        Nat.mul_le_mul_right k (by omega)
      omega
    simp [Response.listing, hdrop]

/-- Witness of C9: the three records of the sample employee, two to a
page. -/
theorem getEmployeeHistory_pages_witness :
    (stateD.employees.find? (fun e => e._id = 0)).isSome = true ∧ 1 ≤ 2 ∧
    (List.range (pageCount (recordsOf stateD 0).length 2)).flatMap
        (fun i => (getEmployeeHistory stateD 0 ((i + 1 : Nat) : Int) (2 : Nat)).entries) =
      (sortByCreatedAtDesc (recordsOf stateD 0)).map
        (fun r => ⟨r._id, r.operation, r.changes, r.createdAt, r.changedBy,
          r.changeReason⟩) :=
  ⟨by decide, by decide,
   (getEmployeeHistory_pages stateD 0 2 (by decide) (by decide)).2.2.2.2.1⟩

/-! ## Objects -/

theorem Snapshot.get_set (o : Snapshot) (k f : String) (v : JsValue) :
    (o.set k v).get f = if k = f then v else o.get f := by
  induction o with
  | nil => simp [Snapshot.set, Snapshot.get]
  | cons kv ps ih =>
    obtain ⟨k', w⟩ := kv
    by_cases hk : k' = k
    · subst hk
      by_cases hf : k' = f <;> simp [Snapshot.set, Snapshot.get, hf]
    · by_cases hf : k' = f
      · subst hf
        have hne : ¬ k = k' := fun e => hk e.symm
        simp [Snapshot.set, Snapshot.get, hk, hne]
      · simp [Snapshot.set, Snapshot.get, hk, hf, ih]

theorem get_applyChanges (new : Snapshot) (cs : List FieldChange) (o : Snapshot)
    (f : String) (h : ∀ c ∈ cs, c.newValue = new.get c.field) :
    (applyChanges o cs).get f =
      if f ∈ cs.map (fun c => c.field) then new.get f else o.get f := by
  induction cs generalizing o with
  | nil => simp [applyChanges]
  | cons c cs ih =>
    have ih' := ih (o.set c.field c.newValue) (fun d hd => h d (List.mem_cons_of_mem _ hd))
    have hc := h c (List.mem_cons_self _ _)
    simp only [applyChanges, List.foldl_cons] at ih' ⊢
    rw [ih', Snapshot.get_set]
    by_cases h1 : f ∈ cs.map (fun c => c.field)
    · simp [h1]
    · by_cases h2 : c.field = f
      · subst h2
        simp [hc]
      · have h3 : ¬ f = c.field := fun e => h2 e.symm
        simp [h1, h2, h3]

theorem changeOf_newValue (a b : Snapshot) (fields : List String) :
    ∀ c ∈ fields.filterMap (changeOf a b),
      c.oldValue = a.get c.field ∧ c.newValue = b.get c.field := by
  intro c hc
  obtain ⟨g, _, hg⟩ := List.mem_filterMap.mp hc
  unfold changeOf at hg
  by_cases h : stringify (a.get g) = stringify (b.get g)
  · simp [h] at hg
  · simp only [ne_eq, h, not_false_eq_true, ↓reduceIte, Option.some.injEq] at hg
    subst hg
    exact ⟨rfl, rfl⟩

/-! ## The invariant -/

theorem filter_append_record (h : List HistoryRecord) (r : HistoryRecord) (id : ObjectId) :
    (h ++ [r]).filter (fun x => x.employeeId = id) =
      h.filter (fun x => x.employeeId = id) ++ (if r.employeeId = id then [r] else []) := by
  by_cases hr : r.employeeId = id <;> simp [List.filter_append, List.filter_cons, hr]

theorem filter_append_other (h : List HistoryRecord) (r : HistoryRecord) (id : ObjectId)
    (hr : r.employeeId ≠ id) :
    (h ++ [r]).filter (fun x => x.employeeId = id) =
      h.filter (fun x => x.employeeId = id) := by
  rw [filter_append_record, if_neg hr, List.append_nil]

theorem filter_append_same (h : List HistoryRecord) (r : HistoryRecord) :
    (h ++ [r]).filter (fun x => x.employeeId = r.employeeId) =
      h.filter (fun x => x.employeeId = r.employeeId) ++ [r] := by
  rw [filter_append_record, if_pos rfl]

theorem pairwise_append_record (h : List HistoryRecord) (r : HistoryRecord) (t : Nat)
    (hs : h.Pairwise (fun a b => a.createdAt ≤ b.createdAt))
    (hle : ∀ x ∈ h, x.createdAt ≤ t) (ht : t ≤ r.createdAt) :
    (h ++ [r]).Pairwise (fun a b => a.createdAt ≤ b.createdAt) := by
  rw [List.pairwise_append]
  refine ⟨hs, List.pairwise_singleton _ _, ?_⟩
  intro a ha b hb
  rw [List.mem_singleton] at hb
  subst hb
  exact Nat.le_trans (hle a ha) ht

theorem Inv.init : Inv State.init 0 where
  hist_emp := by simp [State.init]
  emp_lt := by simp [State.init]
  has_record := by simp [State.init]
  first_create := by simp [State.init]
  times_sorted := by simp [State.init]
  times_le := by simp [State.init]

theorem synced_init : Synced State.init where
  last_snapshot := by simp [State.init]
  chain := by simp [State.init]

theorem Inv.mono {s : State} {t t' : Nat} (h : Inv s t) (ht : t ≤ t') : Inv s t' :=
  { h with times_le := fun r hr => Nat.le_trans (h.times_le r hr) ht }

theorem Synced.congr {s s' : State} (h : Synced s) (he : s'.employees = s.employees)
    (hh : s'.history = s.history) : Synced s' where
  last_snapshot := by
    rw [he, hh]
    exact h.last_snapshot
  chain := by
    rw [hh]
    exact h.chain

theorem fresh_filter_nil {s : State} {t : Nat} (h : Inv s t) :
    s.history.filter (fun x => x.employeeId = s.nextOid) = [] := by
  rw [List.filter_eq_nil_iff]
  intro x hx
  obtain ⟨e, he, hex⟩ := h.hist_emp x hx
  have hne : x.employeeId ≠ s.nextOid := by
    rw [← hex]
    exact Nat.ne_of_lt (h.emp_lt e he)
  simpa using hne

theorem filter_fresh_new {s : State} {t : Nat} (h : Inv s t) (r : HistoryRecord)
    (hid : r.employeeId = s.nextOid) :
    (s.history ++ [r]).filter (fun x => x.employeeId = s.nextOid) = [r] := by
  rw [← hid, filter_append_same, hid, fresh_filter_nil h, List.nil_append]

/-- The invariant survives the insertion of a new employee with its CREATE
record. -/
theorem Inv.create {s : State} {t : Nat} (h : Inv s t) (now : Nat) (ht : t ≤ now)
    (paths : Snapshot) (r : HistoryRecord) (hid : r.employeeId = s.nextOid)
    (hop : r.operation = .CREATE) (hch : r.changes = []) (hat : r.createdAt = now) :
    Inv ⟨s.employees ++ [⟨s.nextOid, paths⟩], s.history ++ [r], s.nextOid + 2⟩ now := by
  have hold : ∀ id, id ≠ s.nextOid →
      (s.history ++ [r]).filter (fun x => x.employeeId = id) =
        s.history.filter (fun x => x.employeeId = id) := by
    intro id hi
    exact filter_append_other _ _ _ (by rw [hid]; exact fun e => hi e.symm)
  refine ⟨?_, ?_, ?_, ?_, ?_, ?_⟩
  · intro x hx
    rcases List.mem_append.mp hx with hx | hx
    · obtain ⟨e, he, hex⟩ := h.hist_emp x hx
      exact ⟨e, List.mem_append_left _ he, hex⟩
    · rw [List.mem_singleton] at hx
      subst hx
      exact ⟨⟨s.nextOid, paths⟩, by simp, hid.symm⟩
  · intro e he
    rcases List.mem_append.mp he with he | he
    · exact Nat.lt_of_lt_of_le (h.emp_lt e he) (Nat.le_add_right _ 2)
    · rw [List.mem_singleton] at he
      subst he
      exact Nat.lt_add_of_pos_right (by decide)
  · intro e he
    show (s.history ++ [r]).filter (fun x => x.employeeId = e._id) ≠ []
    rcases List.mem_append.mp he with he | he
    · rw [hold _ (Nat.ne_of_lt (h.emp_lt e he))]
      exact h.has_record e he
    · rw [List.mem_singleton] at he
      subst he
      rw [filter_fresh_new h r hid]
      exact List.cons_ne_nil _ _
  · intro id x
    show ((s.history ++ [r]).filter (fun x => x.employeeId = id)).head? = some x → _
    by_cases hi : id = s.nextOid
    · subst hi
      rw [filter_fresh_new h r hid]
      intro hx
      simp only [List.head?_cons, Option.some.injEq] at hx
      subst hx
      exact ⟨hop, hch⟩
    · rw [hold _ hi]
      exact h.first_create id x
  · exact pairwise_append_record _ _ t h.times_sorted h.times_le (by rw [hat]; exact ht)
  · intro x hx
    rcases List.mem_append.mp hx with hx | hx
    · exact Nat.le_trans (h.times_le x hx) ht
    · rw [List.mem_singleton] at hx
      subst hx
      exact Nat.le_of_eq hat

/-- The history stays in step when a new employee is inserted with a record
that holds it. -/
theorem synced_create {s : State} {t : Nat} (h : Inv s t) (hs : Synced s)
    (paths : Snapshot) (r : HistoryRecord) (hid : r.employeeId = s.nextOid)
    (hsn : r.snapshot = EmployeeDoc.toObject ⟨s.nextOid, paths⟩) :
    Synced ⟨s.employees ++ [⟨s.nextOid, paths⟩], s.history ++ [r], s.nextOid + 2⟩ := by
  have hold : ∀ id, id ≠ s.nextOid →
      (s.history ++ [r]).filter (fun x => x.employeeId = id) =
        s.history.filter (fun x => x.employeeId = id) := by
    intro id hi
    exact filter_append_other _ _ _ (by rw [hid]; exact fun e => hi e.symm)
  refine ⟨?_, ?_⟩
  · intro e he
    show ∃ r', ((s.history ++ [r]).filter (fun x => x.employeeId = e._id)).getLast? = some r' ∧
      r'.snapshot = e.toObject
    rcases List.mem_append.mp he with he | he
    · rw [hold _ (Nat.ne_of_lt (h.emp_lt e he))]
      exact hs.last_snapshot e he
    · rw [List.mem_singleton] at he
      subst he
      rw [filter_fresh_new h r hid]
      exact ⟨r, rfl, hsn⟩
  · intro id
    show List.Chain' Linked ((s.history ++ [r]).filter (fun x => x.employeeId = id))
    by_cases hi : id = s.nextOid
    · subst hi
      rw [filter_fresh_new h r hid]
      exact List.chain'_singleton r
    · rw [hold _ hi]
      exact hs.chain id

theorem mem_storeEmployee {es : List EmployeeDoc} {e x : EmployeeDoc}
    (hx : x ∈ storeEmployee es e) :
    (x = e ∧ ∃ y ∈ es, y._id = e._id) ∨ (x ∈ es ∧ x._id ≠ e._id) := by
  obtain ⟨y, hy, hxy⟩ := List.mem_map.mp hx
  by_cases hid : y._id = e._id
  · rw [if_pos hid] at hxy
    exact Or.inl ⟨hxy.symm, y, hy, hid⟩
  · rw [if_neg hid] at hxy
    subst hxy
    exact Or.inr ⟨hy, hid⟩

theorem storeEmployee_has_id {es : List EmployeeDoc} (e y : EmployeeDoc) (hy : y ∈ es) :
    ∃ x ∈ storeEmployee es e, x._id = y._id := by
  refine ⟨if y._id = e._id then e else y, List.mem_map.mpr ⟨y, hy, rfl⟩, ?_⟩
  by_cases hid : y._id = e._id
  · rw [if_pos hid]
    exact hid.symm
  · rw [if_neg hid]

theorem storeEmployee_id_mem {es : List EmployeeDoc} {e x : EmployeeDoc}
    (he : ∃ y ∈ es, y._id = e._id) (hx : x ∈ storeEmployee es e) :
    ∃ y ∈ es, y._id = x._id := by
  rcases mem_storeEmployee hx with ⟨hxe, _⟩ | ⟨hxs, _⟩
  · rw [hxe]
    exact he
  · exact ⟨x, hxs, rfl⟩

/-- The invariant survives a change of a stored employee that no record
follows. -/
theorem Inv.store {s : State} {t : Nat} (h : Inv s t) (now : Nat) (ht : t ≤ now)
    (found e : EmployeeDoc) (hfound : found ∈ s.employees) (he : e._id = found._id) :
    Inv ⟨storeEmployee s.employees e, s.history, s.nextOid⟩ now := by
  refine ⟨?_, ?_, ?_, h.first_create, h.times_sorted,
    fun x hx => Nat.le_trans (h.times_le x hx) ht⟩
  · intro x hx
    obtain ⟨y, hy, hyx⟩ := h.hist_emp x hx
    obtain ⟨z, hz, hzy⟩ := storeEmployee_has_id e y hy
    exact ⟨z, hz, hzy.trans hyx⟩
  · intro x hx
    obtain ⟨y, hy, hyx⟩ := storeEmployee_id_mem ⟨found, hfound, he.symm⟩ hx
    show x._id < s.nextOid
    rw [← hyx]
    exact h.emp_lt y hy
  · intro x hx
    obtain ⟨y, hy, hyx⟩ := storeEmployee_id_mem ⟨found, hfound, he.symm⟩ hx
    show s.history.filter (fun r => r.employeeId = x._id) ≠ []
    rw [← hyx]
    exact h.has_record y hy

/-- The invariant survives a change of a stored employee followed by a
record. -/
theorem Inv.record {s : State} {t : Nat} (h : Inv s t) (now : Nat) (ht : t ≤ now)
    (found e : EmployeeDoc) (r : HistoryRecord) (hfound : found ∈ s.employees)
    (he : e._id = found._id) (hid : r.employeeId = found._id) (hat : r.createdAt = now) :
    Inv ⟨storeEmployee s.employees e, s.history ++ [r], s.nextOid + 1⟩ now := by
  have hprev := h.has_record found hfound
  refine ⟨?_, ?_, ?_, ?_, ?_, ?_⟩
  · intro x hx
    rcases List.mem_append.mp hx with hx | hx
    · obtain ⟨y, hy, hyx⟩ := h.hist_emp x hx
      obtain ⟨z, hz, hzy⟩ := storeEmployee_has_id e y hy
      exact ⟨z, hz, hzy.trans hyx⟩
    · rw [List.mem_singleton] at hx
      subst hx
      obtain ⟨z, hz, hzy⟩ := storeEmployee_has_id e found hfound
      exact ⟨z, hz, hzy.trans hid.symm⟩
  · intro x hx
    obtain ⟨y, hy, hyx⟩ := storeEmployee_id_mem ⟨found, hfound, he.symm⟩ hx
    show x._id < s.nextOid + 1
    rw [← hyx]
    exact Nat.lt_succ_of_lt (h.emp_lt y hy)
  · intro x hx
    obtain ⟨y, hy, hyx⟩ := storeEmployee_id_mem ⟨found, hfound, he.symm⟩ hx
    show (s.history ++ [r]).filter (fun z => z.employeeId = x._id) ≠ []
    rw [← hyx, filter_append_record]
    intro hnil
    exact h.has_record y hy (List.append_eq_nil.mp hnil).1
  · intro id x
    show ((s.history ++ [r]).filter (fun x => x.employeeId = id)).head? = some x → _
    by_cases hi : id = found._id
    · subst hi
      rw [← hid, filter_append_same, hid, List.head?_append]
      intro hx
      apply h.first_create found._id x
      cases hh : (s.history.filter (fun x => x.employeeId = found._id)).head? with
      | none =>
        rw [List.head?_eq_none_iff] at hh
        exact absurd hh hprev
      | some z =>
        rw [hh] at hx
        simpa using hx
    · rw [filter_append_other _ _ _ (by rw [hid]; exact fun e => hi e.symm)]
      exact h.first_create id x
  · exact pairwise_append_record _ _ t h.times_sorted h.times_le (by rw [hat]; exact ht)
  · intro x hx
    rcases List.mem_append.mp hx with hx | hx
    · exact Nat.le_trans (h.times_le x hx) ht
    · rw [List.mem_singleton] at hx
      subst hx
      exact Nat.le_of_eq hat

/-- The history stays in step when a change of a stored employee is followed
by a linked record that holds it. -/
theorem synced_record {s : State} (hs : Synced s)
    (found e : EmployeeDoc) (r : HistoryRecord) (hfound : found ∈ s.employees)
    (he : e._id = found._id) (hid : r.employeeId = found._id)
    (hsn : r.snapshot = e.toObject)
    (hlink : ∀ p : HistoryRecord, p.snapshot = found.toObject → Linked p r) :
    Synced ⟨storeEmployee s.employees e, s.history ++ [r], s.nextOid + 1⟩ := by
  obtain ⟨p, hp, hpsn⟩ := hs.last_snapshot found hfound
  have hnew : (s.history ++ [r]).filter (fun x => x.employeeId = found._id) =
      s.history.filter (fun x => x.employeeId = found._id) ++ [r] := by
    rw [← hid, filter_append_same]
  have hold : ∀ id, id ≠ found._id →
      (s.history ++ [r]).filter (fun x => x.employeeId = id) =
        s.history.filter (fun x => x.employeeId = id) := by
    intro id hi
    exact filter_append_other _ _ _ (by rw [hid]; exact fun e => hi e.symm)
  refine ⟨?_, ?_⟩
  · intro x hx
    show ∃ r', ((s.history ++ [r]).filter (fun y => y.employeeId = x._id)).getLast? = some r' ∧
      r'.snapshot = x.toObject
    rcases mem_storeEmployee hx with ⟨hxe, _⟩ | ⟨hxs, hxne⟩
    · rw [hxe, he, hnew]
      exact ⟨r, by simp, hsn⟩
    · rw [hold _ (by rw [← he]; exact hxne)]
      exact hs.last_snapshot x hxs
  · intro id
    show List.Chain' Linked ((s.history ++ [r]).filter (fun x => x.employeeId = id))
    by_cases hi : id = found._id
    · subst hi
      rw [hnew, List.chain'_append]
      refine ⟨hs.chain _, List.chain'_singleton r, ?_⟩
      intro x hx y hy
      rw [hp] at hx
      simp only [Option.mem_def, Option.some.injEq] at hx
      simp only [List.head?_cons, Option.mem_def, Option.some.injEq] at hy
      subst hx hy
      exact hlink _ hpsn
    · rw [hold _ hi]
      exact hs.chain id

/-! ## The controllers keep the invariant -/

theorem findActive_some {s : State} {id : ObjectId} {found : EmployeeDoc}
    (h : findActive s id = some found) :
    found ∈ s.employees ∧ found._id = id ∧ found.paths.get "isDeleted" = .bool false := by
  unfold findActive at h
  have h1 := List.mem_of_find?_eq_some h
  have h2 := List.find?_some h
  simp only [decide_eq_true_eq] at h2
  exact ⟨h1, h2.1, h2.2⟩

theorem generateEmployeeId_ne_empty (now : Nat) : generateEmployeeId now ≠ "" := by
  intro h
  have hl := congrArg String.length h
  simp only [generateEmployeeId, String.length_append] at hl
  have h4 : "EMP-".length = 4 := by decide
  have h0 : "".length = 0 := by decide
  omega

theorem toObject_ne_nil (e : EmployeeDoc) : e.toObject ≠ [] := by
  simp [EmployeeDoc.toObject]

theorem createEmployee_rejected {M : EmployeeModel} {s : State} {now : Nat} {body : Snapshot}
    (hc : M.create s.employees now (createFields body) = none) :
    (createEmployee M s now body).1 = s := by
  simp only [createEmployee, hc]

theorem createEmployee_created {M : EmployeeModel} {s : State} {now : Nat} {body : Snapshot}
    {paths : Snapshot} (hc : M.create s.employees now (createFields body) = some paths) :
    (createEmployee M s now body).1 =
      ⟨s.employees ++ [⟨s.nextOid, paths.set "employeeId" (.str (generateEmployeeId now))⟩],
       s.history ++ [buildHistory (s.nextOid + 1) now s.nextOid (generateEmployeeId now)
         .CREATE none
         (EmployeeDoc.toObject
           ⟨s.nextOid, paths.set "employeeId" (.str (generateEmployeeId now))⟩)
         "system" "Employee record created"],
       s.nextOid + 2⟩ := by
  have hid : EmployeeDoc.employeeId
      ⟨s.nextOid, paths.set "employeeId" (.str (generateEmployeeId now))⟩ =
      some (generateEmployeeId now) := by
    simp [EmployeeDoc.employeeId, Snapshot.get_set, stringPath]
  simp only [createEmployee, hc, hid]
  rw [createHistory_stored _ _ _ _ _ _ _ _ _ (generateEmployeeId_ne_empty now)
    (toObject_ne_nil _) (fun _ hb => Option.noConfusion hb) (toObject_kept _)]

theorem updateEmployee_missing {M : EmployeeModel} {s : State} {now : Nat} {id : ObjectId}
    {body : Snapshot} (hf : findActive s id = none) :
    (updateEmployee M s now id body).1 = s := by
  simp only [updateEmployee, hf]

theorem updateEmployee_rejected {M : EmployeeModel} {s : State} {now : Nat} {id : ObjectId}
    {body : Snapshot} {found : EmployeeDoc} (hf : findActive s id = some found)
    (hc : M.assignAndSave s.employees now found body = none) :
    (updateEmployee M s now id body).1 = s := by
  simp only [updateEmployee, hf, hc]

/-- The two outcomes of an update that was saved: a record follows, or the
history write is rejected and only the employee changed. -/
theorem updateEmployee_saved {M : EmployeeModel} {s : State} {now : Nat} {id : ObjectId}
    {body : Snapshot} {found : EmployeeDoc} {paths : Snapshot}
    (hf : findActive s id = some found)
    (hc : M.assignAndSave s.employees now found body = some paths) :
    (∃ ref : String, EmployeeDoc.employeeId ⟨found._id, paths⟩ = some ref ∧ ref ≠ "" ∧
      (updateEmployee M s now id body).1 =
        ⟨storeEmployee s.employees ⟨found._id, paths⟩,
         s.history ++ [buildHistory s.nextOid now found._id ref
           .UPDATE (some found.toObject) (EmployeeDoc.toObject ⟨found._id, paths⟩) "system"
           "Employee record updated"],
         s.nextOid + 1⟩) ∨
    (updateEmployee M s now id body).1 =
      ⟨storeEmployee s.employees ⟨found._id, paths⟩, s.history, s.nextOid⟩ := by
  cases href : EmployeeDoc.employeeId ⟨found._id, paths⟩ with
  | none =>
    right
    simp only [updateEmployee, hf, hc, href, createHistory]
  | some ref =>
    by_cases hne : ref = ""
    · right
      simp only [updateEmployee, hf, hc, href, createHistory, hne, if_true]
    · left
      refine ⟨ref, rfl, hne, ?_⟩
      simp only [updateEmployee, hf, hc, href]
      rw [createHistory_stored _ _ _ _ _ _ _ _ _ hne (toObject_ne_nil _)
        (fun _ hb => by rw [← Option.some.inj hb]; exact toObject_kept _) (toObject_kept _)]

theorem deleteEmployee_missing {s : State} {now : Nat} {id : ObjectId}
    (hf : findActive s id = none) : (deleteEmployee s now id).1 = s := by
  simp only [deleteEmployee, hf]

/-- The two outcomes of a delete of a stored employee: a record follows, or
the history write is rejected and only the employee changed. -/
theorem deleteEmployee_saved {s : State} {now : Nat} {id : ObjectId} {found : EmployeeDoc}
    (hf : findActive s id = some found) :
    (∃ ref : String,
      (EmployeeDoc.save { found with paths := found.paths.set "isDeleted" (.bool true) }
        now).employeeId = some ref ∧ ref ≠ "" ∧
      (deleteEmployee s now id).1 =
        ⟨storeEmployee s.employees
           (EmployeeDoc.save { found with paths := found.paths.set "isDeleted" (.bool true) }
             now),
         s.history ++ [buildHistory s.nextOid now found._id ref
           .DELETE (some found.toObject)
           (EmployeeDoc.save { found with paths := found.paths.set "isDeleted" (.bool true) }
             now).toObject "system" "Employee record deleted"],
         s.nextOid + 1⟩) ∨
    (deleteEmployee s now id).1 =
      ⟨storeEmployee s.employees
         (EmployeeDoc.save { found with paths := found.paths.set "isDeleted" (.bool true) }
           now),
       s.history, s.nextOid⟩ := by
  cases href : (EmployeeDoc.save
      { found with paths := found.paths.set "isDeleted" (.bool true) } now).employeeId with
  | none =>
    right
    simp only [deleteEmployee, hf, href, createHistory]
  | some ref =>
    by_cases hne : ref = ""
    · right
      simp only [deleteEmployee, hf, href, createHistory, hne, if_true]
    · left
      refine ⟨ref, rfl, hne, ?_⟩
      simp only [deleteEmployee, hf, href]
      rw [createHistory_stored _ _ _ _ _ _ _ _ _ hne (toObject_ne_nil _)
        (fun _ hb => by rw [← Option.some.inj hb]; exact toObject_kept _) (toObject_kept _)]
      rfl

theorem Inv.of_createEmployee (M : EmployeeModel) {s : State} {t : Nat} (h : Inv s t)
    (now : Nat) (ht : t ≤ now) (body : Snapshot) :
    Inv (createEmployee M s now body).1 now := by
  cases hc : M.create s.employees now (createFields body) with
  | none =>
    rw [createEmployee_rejected hc]
    exact h.mono ht
  | some paths =>
    rw [createEmployee_created hc]
    exact h.create now ht _ _ rfl rfl rfl rfl

theorem Inv.of_updateEmployee (M : EmployeeModel) {s : State} {t : Nat} (h : Inv s t)
    (now : Nat) (ht : t ≤ now) (id : ObjectId) (body : Snapshot) :
    Inv (updateEmployee M s now id body).1 now := by
  cases hf : findActive s id with
  | none =>
    rw [updateEmployee_missing hf]
    exact h.mono ht
  | some found =>
    obtain ⟨hmem, _, _⟩ := findActive_some hf
    cases hc : M.assignAndSave s.employees now found body with
    | none =>
      rw [updateEmployee_rejected hf hc]
      exact h.mono ht
    | some paths =>
      rcases updateEmployee_saved hf hc with ⟨ref, _, _, hst⟩ | hst
      · rw [hst]
        exact h.record now ht found ⟨found._id, paths⟩ _ hmem rfl rfl rfl
      · rw [hst]
        exact h.store now ht found ⟨found._id, paths⟩ hmem rfl

theorem Inv.of_deleteEmployee {s : State} {t : Nat} (h : Inv s t)
    (now : Nat) (ht : t ≤ now) (id : ObjectId) :
    Inv (deleteEmployee s now id).1 now := by
  cases hf : findActive s id with
  | none =>
    rw [deleteEmployee_missing hf]
    exact h.mono ht
  | some found =>
    obtain ⟨hmem, _, _⟩ := findActive_some hf
    rcases deleteEmployee_saved hf with ⟨ref, _, _, hst⟩ | hst
    · rw [hst]
      exact h.record now ht found _ _ hmem rfl rfl rfl
    · rw [hst]
      exact h.store now ht found _ hmem rfl

theorem Inv.of_step (M : EmployeeModel) {s : State} {t : Nat} (h : Inv s t)
    (now : Nat) (ht : t ≤ now) (req : Request) : Inv (step M s now req).1 now := by
  cases req with
  | createEmployee body => exact h.of_createEmployee M now ht body
  | updateEmployee id body => exact h.of_updateEmployee M now ht id body
  | deleteEmployee id => exact h.of_deleteEmployee now ht id
  | getEmployeeHistory id page limit => exact h.mono ht
  | getHistoryDetails historyId => exact h.mono ht
  | compareVersions id v1 v2 => exact h.mono ht

theorem Reachable.inv {M : EmployeeModel} {s : State} {t : Nat} (h : Reachable M s t) :
    Inv s t := by
  induction h with
  | init => exact Inv.init
  | step now req _ ht ih => exact ih.of_step M now ht req

theorem Recorded.reachable {M : EmployeeModel} {s : State} {t : Nat}
    (h : Recorded M s t) : Reachable M s t := by
  induction h with
  | init => exact Reachable.init
  | step now req _ ht _ ih => exact Reachable.step now req ih ht

theorem synced_of_updateEmployee (M : EmployeeModel) {s : State} (hs : Synced s)
    (now : Nat) (id : ObjectId) (body : Snapshot)
    (hrec : (updateEmployee M s now id body).1.history = s.history →
      (updateEmployee M s now id body).1.employees = s.employees) :
    Synced (updateEmployee M s now id body).1 := by
  cases hf : findActive s id with
  | none =>
    rw [updateEmployee_missing hf]
    exact hs
  | some found =>
    obtain ⟨hmem, _, _⟩ := findActive_some hf
    cases hc : M.assignAndSave s.employees now found body with
    | none =>
      rw [updateEmployee_rejected hf hc]
      exact hs
    | some paths =>
      rcases updateEmployee_saved hf hc with ⟨ref, _, _, hst⟩ | hst
      · rw [hst]
        refine synced_record hs found ⟨found._id, paths⟩ _ hmem rfl rfl rfl ?_
        intro p hp _
        rw [hp]
        rfl
      · rw [hst] at hrec
        rw [hst]
        exact hs.congr (hrec rfl) rfl

theorem synced_of_deleteEmployee {s : State} (hs : Synced s)
    (now : Nat) (id : ObjectId)
    (hrec : (deleteEmployee s now id).1.history = s.history →
      (deleteEmployee s now id).1.employees = s.employees) :
    Synced (deleteEmployee s now id).1 := by
  cases hf : findActive s id with
  | none =>
    rw [deleteEmployee_missing hf]
    exact hs
  | some found =>
    obtain ⟨hmem, _, _⟩ := findActive_some hf
    rcases deleteEmployee_saved hf with ⟨ref, _, _, hst⟩ | hst
    · rw [hst]
      refine synced_record hs found _ _ hmem rfl rfl rfl ?_
      intro p _ hop
      exact Operation.noConfusion hop
    · rw [hst] at hrec
      rw [hst]
      exact hs.congr (hrec rfl) rfl

theorem Recorded.synced {M : EmployeeModel} {s : State} {t : Nat} (h : Recorded M s t) :
    Synced s := by
  induction h with
  | init => exact synced_init
  | @step s t now req hprev _ hrec ih =>
    cases req with
    | createEmployee body =>
      show Synced (createEmployee M s now body).1
      cases hc : M.create s.employees now (createFields body) with
      | none =>
        rw [createEmployee_rejected hc]
        exact ih
      | some paths =>
        rw [createEmployee_created hc]
        exact synced_create hprev.reachable.inv ih _ _ rfl rfl
    | updateEmployee id body => exact synced_of_updateEmployee M ih now id body hrec
    | deleteEmployee id => exact synced_of_deleteEmployee ih now id hrec
    | getEmployeeHistory id page limit => exact ih
    | getHistoryDetails historyId => exact ih
    | compareVersions id v1 v2 => exact ih

/-! ## Claims about the trail -/

theorem reachable_stateD : Reachable plainModel stateD 3000 :=
  Reachable.step 3000 (.deleteEmployee 0)
    (Reachable.step 2000 (.updateEmployee 0 (sampleBody.set "salary" (.num 60000)))
      (Reachable.step 1000 (.createEmployee sampleBody) Reachable.init (by decide))
      (by decide))
    (by decide)

theorem recorded_stateD : Recorded plainModel stateD 3000 :=
  Recorded.step 3000 (.deleteEmployee 0)
    (Recorded.step 2000 (.updateEmployee 0 (sampleBody.set "salary" (.num 60000)))
      (Recorded.step 1000 (.createEmployee sampleBody) Recorded.init (by decide) (by decide))
      (by decide) (by decide))
    (by decide) (by decide)

theorem recordsOf_stateD : recordsOf stateD 0 = [] ++ recordA :: recordB :: [recordD] := by
  decide

theorem linked_of_consecutive {M : EmployeeModel} {s : State} {t : Nat}
    (h : Recorded M s t) {id : ObjectId} {pre post : List HistoryRecord}
    {p r : HistoryRecord} (hr : recordsOf s id = pre ++ p :: r :: post) : Linked p r := by
  have hc := h.synced.chain id
  unfold recordsOf at hr
  rw [hr, List.chain'_append] at hc
  exact (List.chain'_cons.mp hc.2.1).1

/-- C2: serving a request leaves every history record in place and
unchanged; a mutation appends at most one record and a read appends none. -/
theorem history_append_only (M : EmployeeModel) (s : State) (now : Nat) (req : Request) :
    ∃ added : List HistoryRecord,
      (step M s now req).1.history = s.history ++ added ∧
      added.length ≤ (if req.isRead = true then 0 else 1) := by
  cases req with
  | createEmployee body =>
    show ∃ added, (createEmployee M s now body).1.history = _ ∧ _
    cases hc : M.create s.employees now (createFields body) with
    | none => exact ⟨[], by rw [createEmployee_rejected hc, List.append_nil], by simp⟩
    | some paths => exact ⟨[_], by rw [createEmployee_created hc], by simp [Request.isRead]⟩
  | updateEmployee id body =>
    show ∃ added, (updateEmployee M s now id body).1.history = _ ∧ _
    cases hf : findActive s id with
    | none => exact ⟨[], by rw [updateEmployee_missing hf, List.append_nil], by simp⟩
    | some found =>
      cases hc : M.assignAndSave s.employees now found body with
      | none => exact ⟨[], by rw [updateEmployee_rejected hf hc, List.append_nil], by simp⟩
      | some paths =>
        rcases updateEmployee_saved hf hc with ⟨ref, _, _, hst⟩ | hst
        · exact ⟨[_], by rw [hst], by simp [Request.isRead]⟩
        · exact ⟨[], by rw [hst, List.append_nil], by simp⟩
  | deleteEmployee id =>
    show ∃ added, (deleteEmployee s now id).1.history = _ ∧ _
    cases hf : findActive s id with
    | none => exact ⟨[], by rw [deleteEmployee_missing hf, List.append_nil], by simp⟩
    | some found =>
      rcases deleteEmployee_saved hf with ⟨ref, _, _, hst⟩ | hst
      · exact ⟨[_], by rw [hst], by simp [Request.isRead]⟩
      · exact ⟨[], by rw [hst, List.append_nil], by simp⟩
  | getEmployeeHistory id page limit => exact ⟨[], by simp [step], by simp⟩
  | getHistoryDetails historyId => exact ⟨[], by simp [step], by simp⟩
  | compareVersions id v1 v2 => exact ⟨[], by simp [step], by simp⟩

/-- C4, the code at the failing input: deleting the active sample employee
appends one DELETE record whose snapshot has `isDeleted = true` and still
`employmentStatus = 'Active'`, while the schema's own `softDelete` sets the
status of the same employee to `'Inactive'`. -/
theorem deleteEmployee_snapshot_keeps_status :
    (deleteEmployee stateB 3000 0).1.history = stateB.history ++ [recordD] ∧
    recordD.operation = .DELETE ∧
    recordD.snapshot.get "isDeleted" = .bool true ∧
    recordD.snapshot.get "employmentStatus" = .str "Active" ∧
    stateB.employees.map (fun e => (e.softDelete 3000).toObject.get "employmentStatus") =
      [.str "Inactive"] := by
  decide

/-- C5, counterexample: the claim as stated fails.  After the sample
employee is created, updated and deleted, the DELETE record has no changes,
and `isDeleted` is `true` in its snapshot and `false` in the snapshot of the
record before it. -/
theorem snapshot_chain_fails_on_delete :
    ¬ ∀ (s : State) (t : Nat), Reachable plainModel s t →
        ∀ (id : ObjectId) (pre post : List HistoryRecord) (p r : HistoryRecord),
          recordsOf s id = pre ++ p :: r :: post →
          ∀ f : String, r.snapshot.get f = (applyChanges p.snapshot r.changes).get f := by
  intro h
  have h1 := h stateD 3000 reachable_stateD 0 [recordA] [] recordB recordD (by decide)
    "isDeleted"
  revert h1
  decide

/-- The chain also breaks on a tracked field after a rejected history write:
the update that clears `employeeId` raises the salary and leaves no record,
and the UPDATE record of the next update lists no change while the salary
differs from the one in the record before it. -/
theorem chain_breaks_after_rejected_write :
    Reachable plainModel stateL2 3000 ∧
    (recordsOf stateL2 0).map
        (fun r => (r.operation, r.changes.map (fun c => c.field), r.snapshot.get "salary")) =
      [(.CREATE, [], .num 50000), (.UPDATE, [], .num 60000)] :=
  ⟨Reachable.step 3000 (.updateEmployee 0 [("employeeId", .str "EMP-1000")])
    (Reachable.step 2000
      (.updateEmployee 0 [("employeeId", .null), ("salary", .num 60000)])
      (Reachable.step 1000 (.createEmployee sampleBody) Reachable.init (by decide))
      (by decide))
    (by decide), by decide⟩

/-- C5, as amended: in every state reached without a rejected history write,
for an UPDATE record `r` of a subject, the record `p` before it and every
tracked field `f`, the value of `f` in `p.snapshot` with the changes of `r`
applied has the same JSON serialisation as in `r.snapshot`; a tracked field
not named in `r.changes` has the same serialisation in both snapshots, and an
entry of `r.changes` for `f` holds the value of `f` in `p.snapshot` as
`oldValue` and the value in `r.snapshot` as `newValue`. -/
theorem snapshot_chain_on_tracked_fields (M : EmployeeModel) (s : State) (t : Nat)
    (h : Recorded M s t) (id : ObjectId) (pre post : List HistoryRecord)
    (p r : HistoryRecord) (hr : recordsOf s id = pre ++ p :: r :: post)
    (hop : r.operation = .UPDATE) (f : String) (hf : f ∈ fieldsToTrack) :
    stringify ((applyChanges p.snapshot r.changes).get f) = stringify (r.snapshot.get f) ∧
    (f ∉ r.changes.map (fun c => c.field) →
      stringify (r.snapshot.get f) = stringify (p.snapshot.get f)) ∧
    (∀ c ∈ r.changes, c.field = f →
      c.oldValue = p.snapshot.get f ∧ c.newValue = r.snapshot.get f) := by
  have hch := linked_of_consecutive h hr hop
  have hnew := changeOf_newValue p.snapshot r.snapshot fieldsToTrack
  rw [← hch] at hnew
  have hnot : f ∉ r.changes.map (fun c => c.field) →
      stringify (r.snapshot.get f) = stringify (p.snapshot.get f) := by
    intro hn
    rw [hch, mem_filterMap_changeOf] at hn
    by_contra hne
    exact hn ⟨hf, fun e => hne e.symm⟩
  refine ⟨?_, hnot, ?_⟩
  · rw [get_applyChanges r.snapshot r.changes p.snapshot f (fun c hc => (hnew c hc).2)]
    by_cases hin : f ∈ r.changes.map (fun c => c.field)
    · rw [if_pos hin]
    · rw [if_neg hin]
      exact (hnot hin).symm
  · intro c hc hcf
    rw [← hcf]
    exact hnew c hc

/-- Witness of C5 as amended: the salary in the CREATE and UPDATE records of
the sample employee. -/
theorem snapshot_chain_on_tracked_fields_witness :
    Recorded plainModel stateD 3000 ∧
    recordsOf stateD 0 = [] ++ recordA :: recordB :: [recordD] ∧
    recordB.operation = .UPDATE ∧ "salary" ∈ fieldsToTrack ∧
    stringify ((applyChanges recordA.snapshot recordB.changes).get "salary") =
      stringify (recordB.snapshot.get "salary") :=
  ⟨recorded_stateD, recordsOf_stateD, by decide, by decide,
   (snapshot_chain_on_tracked_fields plainModel stateD 3000 recorded_stateD 0 []
      [recordD] recordA recordB recordsOf_stateD (by decide) "salary" (by decide)).1⟩

/-- C6: in every reachable state, a subject with at least one history record
has a CREATE record with no changes as the first of its records, and no
record of the subject has an earlier `createdAt`. -/
theorem first_record_is_create (M : EmployeeModel) (s : State) (t : Nat)
    (h : Reachable M s t) (id : ObjectId) (hne : recordsOf s id ≠ []) :
    ∃ (r : HistoryRecord) (rest : List HistoryRecord),
      recordsOf s id = r :: rest ∧ r.operation = .CREATE ∧ r.changes = [] ∧
      ∀ x ∈ rest, r.createdAt ≤ x.createdAt := by
  cases hl : recordsOf s id with
  | nil => exact absurd hl hne
  | cons r rest =>
    have hfirst := h.inv.first_create id r (by
      show (recordsOf s id).head? = some r
      rw [hl]
      rfl)
    have hsorted : (recordsOf s id).Pairwise (fun a b => a.createdAt ≤ b.createdAt) :=
      h.inv.times_sorted.filter _
    rw [hl, List.pairwise_cons] at hsorted
    exact ⟨r, rest, rfl, hfirst.1, hfirst.2, hsorted.1⟩

/-- Witness of C6: the trail of the sample employee. -/
theorem first_record_is_create_witness :
    Reachable plainModel stateD 3000 ∧ recordsOf stateD 0 ≠ [] ∧
    ∃ (r : HistoryRecord) (rest : List HistoryRecord),
      recordsOf stateD 0 = r :: rest ∧ r.operation = .CREATE ∧ r.changes = [] ∧
      ∀ x ∈ rest, r.createdAt ≤ x.createdAt :=
  ⟨reachable_stateD, by decide,
   first_record_is_create plainModel stateD 3000 reachable_stateD 0 (by decide)⟩

end EmployeeHistory
